import Mathlib

/-!
Verification of `convert_audio_batch.py` (batch audio conversion driver).

Shallow embedding conventions:
* Python strings are modelled as `List Char` (`Str`), POSIX path rules,
  ASCII model of `str.lower` / `str.upper`.
* `pathlib.Path` values relative to the output root are modelled as lists
  of path components (`Dest`); files discovered under the input root are
  `RelPath` values (directory components plus final file name), i.e. the
  value of `src.relative_to(in_dir)`.
* Fallible code is `Option`-valued: `none` models an uncaught Python
  exception (e.g. `Path.with_suffix` raising `ValueError`).
* The filesystem under the output root is the list of existing paths; the
  external executable is an oracle `Str-list to ExeResult`.  Modelled from
  the spec: on a successful invocation the external tool produces the
  destination file; on a failed invocation it produces no file and yields
  diagnostic text.
-/

namespace ConvertAudio

/-- Python strings, as lists of characters. -/
abbrev Str := List Char

/-- Characters stripped by `str.strip()` (ASCII whitespace model). -/
def pyIsSpace (c : Char) : Bool :=
  c == ' ' || c == '\t' || c == '\n' || c == '\r' || c == '\x0b' || c == '\x0c'

/-- `str.strip()`: drop whitespace from both ends. -/
def pyStrip (s : Str) : Str :=
  ((s.dropWhile pyIsSpace).reverse.dropWhile pyIsSpace).reverse

/-- `str.lower()` (ASCII model). -/
def pyLower (s : Str) : Str := s.map Char.toLower

/-- `str.upper()` (ASCII model). -/
def pyUpper (s : Str) : Str := s.map Char.toUpper

/-- `str.lstrip('.')`: drop all leading dots. -/
def lstripDots (s : Str) : Str := s.dropWhile (· == '.')

/-- `str.split(',')`: split at every comma, keeping empty pieces. -/
def splitComma : Str → List Str
  | [] => [[]]
  | c :: cs =>
    if c = ',' then [] :: splitComma cs
    else
      match splitComma cs with
      | [] => [[c]]
      | t :: ts => (c :: t) :: ts

/-- Line 145: `[f".{fmt.strip().lower().lstrip('.')}" for fmt in
args.formats.split(",") if fmt.strip()]`. -/
def parseFormats (f : Str) : List Str :=
  (splitComma f).filterMap fun t =>
    let s := pyStrip t
    if s = [] then none else some ('.' :: lstripDots (pyLower s))

/-- `PurePath.suffix` of a file name: the part from the last dot `i`
provided `0 < i < len - 1` (pathlib's rule), else empty. -/
def pySuffix (nm : Str) : Str :=
  let r := nm.reverse
  let t := r.takeWhile (· ≠ '.')
  match r.dropWhile (· ≠ '.') with
  | [] => []
  | _ :: before => if before = [] ∨ t = [] then [] else '.' :: t.reverse

/-- The file name with its `pySuffix` removed (`name[:-len(old_suffix)]`,
or the whole name when there is no suffix). -/
def pyStem (nm : Str) : Str := nm.take (nm.length - (pySuffix nm).length)

/-- Last `/`-separated component of a rendered POSIX path. -/
def lastSlashComp (s : Str) : Str := (s.reverse.takeWhile (· ≠ '/')).reverse

/-- `Path(s).suffix` for a rendered POSIX path string. -/
def pyPathSuffix (s : Str) : Str := pySuffix (lastSlashComp s)

/-- Line 27: the supported input extension set. -/
def SUPPORTED_INPUTS : List Str :=
  [".mp3", ".wav", ".ogg", ".m4a", ".aac", ".flac", ".wma", ".aiff",
   ".aif", ".opus", ".caf"].map String.toList

/-- A discovered source file, as `src.relative_to(in_dir)`: directory
components and final file name. -/
structure RelPath where
  dirs : List Str
  name : Str
deriving DecidableEq, Repr

/-- A path relative to the output root, as components. -/
abbrev Dest := List Str

/-- Validity test of `Path.with_suffix(e)` (raises `ValueError` when the
suffix contains the separator, or is a bare dot, or is nonempty without a
leading dot); the name must also be nonempty. -/
def sufOk (e : Str) : Bool :=
  !(e.contains '/') && (e = [] || (e.head? = some '.' && e ≠ ['.']))

/-- Lines 167-169: `dst = out_dir / ext.lstrip(".") / rel.with_suffix(ext)`,
`none` when `with_suffix` raises. -/
def destOf (s : RelPath) (e : Str) : Option Dest :=
  if sufOk e ∧ s.name ≠ [] then
    some (lstripDots e :: (s.dirs ++ [pyStem s.name ++ e]))
  else none

/-- The parsed command-line options and environment of one invocation
(`args`, the resolved executable, the rendered input/output roots, and the
recursive file listing of the input root in traversal order). -/
structure Config where
  ffmpeg : Str
  inDir : Str
  outDir : Str
  formats : Str
  bitrate : Option Str
  samplerate : Option Int
  channels : Option Nat
  normalize : Bool
  overwrite : Bool
  dryRun : Bool
  telephony : Bool
  listing : List RelPath
deriving DecidableEq, Repr

/-- Line 84: the fixed loudness-normalization filter. -/
def loudnormArg : Str := "loudnorm=I=-16:LRA=11:TP=-1.5:linear=true".toList

/-- Lines 86-87: `["-af", ",".join(afilters)]` when any filter was added. -/
def afArgs (normalize : Bool) : List Str :=
  let afilters : List Str := if normalize then [loudnormArg] else []
  if afilters = [] then [] else ["-af".toList, List.intercalate [','] afilters]

/-- `if args.bitrate: cmd += ["-b:a", args.bitrate]` (an empty string is
falsy in Python, like `None`). -/
def bArgs : Option Str → List Str
  | none => []
  | some b => if b = [] then [] else ["-b:a".toList, b]

/-- Lines 90-110: encoder selection from the lowercased destination
extension, with the bitrate appended where the source does so. -/
def codecArgs (ext : Str) (b : Option Str) : List Str :=
  if ext = ".mp3".toList then ["-c:a".toList, "libmp3lame".toList] ++ bArgs b
  else if ext = ".aac".toList ∨ ext = ".m4a".toList then
    ["-c:a".toList, "aac".toList] ++ bArgs b
  else if ext = ".opus".toList then ["-c:a".toList, "libopus".toList] ++ bArgs b
  else if ext = ".ogg".toList then ["-c:a".toList, "libvorbis".toList] ++ bArgs b
  else if ext = ".flac".toList then ["-c:a".toList, "flac".toList]
  else if ext = ".wav".toList ∨ ext = ".aiff".toList ∨ ext = ".aif".toList then
    ["-c:a".toList, "pcm_s16le".toList]
  else bArgs b

/-- Line 113: `if args.samplerate: cmd += ["-ar", str(args.samplerate)]`
(`None` and `0` are falsy). -/
def arArgs : Option Int → List Str
  | none => []
  | some n => if n = 0 then [] else ["-ar".toList, (toString n).toList]

/-- Line 114: `if args.channels: cmd += ["-ac", str(args.channels)]`. -/
def acArgs : Option Nat → List Str
  | none => []
  | some n => if n = 0 then [] else ["-ac".toList, (toString n).toList]

/-- Lines 73-117: `build_ffmpeg_cmd(ffmpeg_bin, src, dst, args)`, with the
source and destination paths already rendered as strings and the
destination extension recovered from the rendered path's final component
(as `dst.suffix` does). -/
def build_ffmpeg_cmd (bin src dst : Str) (a : Config) : List Str :=
  [bin, "-hide_banner".toList, "-loglevel".toList, "error".toList,
   (if a.overwrite then "-y" else "-n").toList, "-i".toList, src]
  ++ afArgs a.normalize
  ++ codecArgs (pyLower (pyPathSuffix dst)) a.bitrate
  ++ arArgs a.samplerate
  ++ acArgs a.channels
  ++ [dst]

/-- The result of one invocation of the external executable:
normal exit, `CalledProcessError` with captured stderr, launch failure
(`FileNotFoundError`), or any other exception (payload = its `repr`). -/
inductive ExeResult where
  | ok : ExeResult
  | fail : Str → ExeResult
  | launchFail : Str → ExeResult
  | raised : Str → ExeResult
deriving DecidableEq, Repr

/-- Observable filesystem/process effects of a run. `mkdir` and `created`
paths are relative to the output root. -/
inductive Effect where
  | invoke : List Str → Effect
  | mkdir : Dest → Effect
  | created : Dest → Effect
deriving DecidableEq, Repr

/-- One planned conversion unit: source, target extension, destination. -/
abbrev Job := RelPath × Str × Dest

/-- The (source, target extension) pairs in loop order: sources in
traversal order, and for each source the targets in user order
(lines 166-168 / 182-184). -/
def jobPairs : List RelPath → List Str → List (RelPath × Str)
  | [], _ => []
  | s :: rest, ts => ts.map (fun e => (s, e)) ++ jobPairs rest ts

/-- Attach the computed destination to every pair; `none` as soon as one
`with_suffix` raises. -/
def attachDests : List (RelPath × Str) → Option (List Job)
  | [] => some []
  | (s, e) :: rest =>
    match destOf s e, attachDests rest with
    | some d, some js => some ((s, e, d) :: js)
    | _, _ => none

/-- Line 160 filter: regular file with supported (lowercased) suffix. -/
def isAudio (p : RelPath) : Bool := SUPPORTED_INPUTS.contains (pyLower (pySuffix p.name))

/-- Line 160: `audio_files`. -/
def audioOf (cfg : Config) : List RelPath := cfg.listing.filter isAudio

/-- The fully planned job list of a run. -/
def jobsOf (cfg : Config) : Option (List Job) :=
  attachDests (jobPairs (audioOf cfg) (parseFormats cfg.formats))

/-- All nonempty proper prefixes of a destination: the directories created
by `dst.parent.mkdir(parents=True, exist_ok=True)` (relative to the output
root, which already exists). -/
def parentsOf (d : Dest) : List Dest :=
  ((List.range d.length).map fun i => d.take i).filter fun p => p ≠ []

/-- Lines 150-157: the telephony preset.  Returns the updated options and
the advisory output (emitted when `.wav` is not among targets); options
the user already set (`is not None`) are untouched. -/
def telephonyStep (cfg : Config) (targets : List Str) : Config × List Str :=
  if cfg.telephony then
    (⟨cfg.ffmpeg, cfg.inDir, cfg.outDir, cfg.formats, cfg.bitrate,
      some (cfg.samplerate.getD 8000), some (cfg.channels.getD 1),
      cfg.normalize, cfg.overwrite, cfg.dryRun, cfg.telephony, cfg.listing⟩,
     if ".wav".toList ∈ targets then []
     else ["[Aviso] --telephony esta pensado para .wav; continuo, pero considera incluir wav en --formats.".toList])
  else (cfg, [])

/-- State of the counting pass (lines 165-173): filesystem under the
output root, emitted effects, and `total_jobs`. -/
structure St1 where
  fs : List Dest
  effs : List Effect
  total : Nat
deriving Repr

/-- Lines 165-173: for each (source, format) pair, create the destination
parent directories, then count the job unless the destination exists and
overwrite is off. -/
def pass1 (ow : Bool) : List Job → St1 → St1
  | [], st => st
  | (_, _, d) :: rest, st =>
    let fs' := parentsOf d ++ st.fs
    let effs' := st.effs ++ [Effect.mkdir d.dropLast]
    let total' := if d ∈ fs' ∧ ow = false then st.total else st.total + 1
    pass1 ow rest ⟨fs', effs', total'⟩

/-- Rendered `str(dst)` for a destination under the output root. -/
def renderDest (outDir : Str) (d : Dest) : Str := outDir ++ '/' :: List.intercalate ['/'] d

/-- Rendered `str(src)` for a discovered file under the input root. -/
def renderSrc (inDir : Str) (s : RelPath) : Str :=
  inDir ++ '/' :: List.intercalate ['/'] (s.dirs ++ [s.name])

/-- Line 191: `f"[{done+1}/{total_jobs}] {src.name} -> {dst.suffix[1:].upper()}  ({dst})"`. -/
def progressLine (done total : Nat) (s : RelPath) (dstStr : Str) : Str :=
  '[' :: ((toString (done + 1)).toList ++ '/' :: (toString total).toList ++ "] ".toList
    ++ s.name ++ " -> ".toList ++ pyUpper ((pyPathSuffix dstStr).drop 1)
    ++ "  (".toList ++ dstStr ++ [')'])

/-- Line 193: `print("  CMD:", " ".join(cmd))`. -/
def cmdLine (cmd : List Str) : Str := "  CMD: ".toList ++ List.intercalate [' '] cmd

/-- Line 204: `print("  Error al convertir:", src, "->", dst)`. -/
def errLine (src dst : Str) : Str :=
  "  Error al convertir: ".toList ++ src ++ " -> ".toList ++ dst

/-- Line 206: `print("  FFmpeg dice:\n", e.stderr.strip())`. -/
def diceLine (stderr : Str) : Str := "  FFmpeg dice:\n ".toList ++ pyStrip stderr

/-- Line 208: the note printed when no stderr was captured. -/
def noDetailsLine : Str := "  (FFmpeg no devolvio detalles)".toList

/-- Line 210: `print("  Error inesperado:", src, "->", dst, "|", repr(e))`. -/
def unexpectedLine (src dst msg : Str) : Str :=
  "  Error inesperado: ".toList ++ src ++ " -> ".toList ++ dst ++ " | ".toList ++ msg

/-- The builder as used inside the execution loop, threaded through the
world (filesystem, effects): its Python body performs no effectful
statement, so the world passes through unchanged. -/
def buildInWorld (w : List Dest × List Effect) (bin src dst : Str) (a : Config) :
    List Str × (List Dest × List Effect) :=
  (build_ffmpeg_cmd bin src dst a, w)

/-- State of the execution pass (lines 181-211). -/
structure St2 where
  fs : List Dest
  effs : List Effect
  out : List Str
  done : Nat
deriving Repr

/-- The body of the execution loop for one non-skipped job (lines
189-211): build the command, print progress, then either print the
command (dry run) or invoke the executable — a nonzero exit
(`CalledProcessError`), a launch failure or any other exception is caught
and reported; on success the external tool produces the destination file
(modelled from the spec); finally `done` is incremented. -/
def stepSt2 (cfg : Config) (total : Nat) (exe : List Str → ExeResult)
    (s : RelPath) (d : Dest) (st : St2) : St2 :=
  let srcStr := renderSrc cfg.inDir s
  let dstStr := renderDest cfg.outDir d
  let bw := buildInWorld (st.fs, st.effs) cfg.ffmpeg srcStr dstStr cfg
  let cmd := bw.1
  let pLine := progressLine st.done total s dstStr
  if cfg.dryRun then
    ⟨bw.2.1, bw.2.2, st.out ++ [pLine, cmdLine cmd], st.done + 1⟩
  else
    match exe cmd with
    | ExeResult.ok =>
      ⟨d :: bw.2.1, bw.2.2 ++ [Effect.invoke cmd, Effect.created d],
       st.out ++ [pLine], st.done + 1⟩
    | ExeResult.fail stderr =>
      ⟨bw.2.1, bw.2.2 ++ [Effect.invoke cmd],
       st.out ++ [pLine, errLine srcStr dstStr]
         ++ (if stderr = [] then [noDetailsLine] else [diceLine stderr]),
       st.done + 1⟩
    | ExeResult.launchFail msg =>
      ⟨bw.2.1, bw.2.2 ++ [Effect.invoke cmd],
       st.out ++ [pLine, unexpectedLine srcStr dstStr msg], st.done + 1⟩
    | ExeResult.raised msg =>
      ⟨bw.2.1, bw.2.2 ++ [Effect.invoke cmd],
       st.out ++ [pLine, unexpectedLine srcStr dstStr msg], st.done + 1⟩

/-- Lines 181-211: for each pair, recompute the destination, skip it when
it exists and overwrite is off, otherwise run the loop body. -/
def pass2 (cfg : Config) (total : Nat) (exe : List Str → ExeResult) :
    List Job → St2 → St2
  | [], st => st
  | (s, _, d) :: rest, st =>
    if d ∈ st.fs ∧ cfg.overwrite = false then pass2 cfg total exe rest st
    else pass2 cfg total exe rest (stepSt2 cfg total exe s d st)

/-- Outcome of a whole run: process exit status, printed lines, effects,
`total_jobs` as reported before execution, and `done` after it. -/
structure RunResult where
  exit : Nat
  output : List Str
  effects : List Effect
  planned : Nat
  attempted : Nat
deriving DecidableEq, Repr

/-- Line 147: the empty-format-list message. -/
def noFormatsLine : Str := "Error: especifica al menos un formato en --formats".toList

/-- Line 162: `print("No se encontraron archivos de audio en:", in_dir)`. -/
def noFilesLine (inDir : Str) : Str :=
  "No se encontraron archivos de audio en: ".toList ++ inDir

/-- Line 175. -/
def foundLine (n : Nat) : Str := "Archivos encontrados: ".toList ++ (toString n).toList

/-- Line 176. -/
def tasksLine (n : Nat) : Str := "Tareas a ejecutar:    ".toList ++ (toString n).toList

/-- Line 178. -/
def nadaLine : Str := "Nada por hacer (posiblemente todo ya convertido).".toList

/-- Line 213. -/
def finalLine : Str := "Proceso finalizado.".toList

/-- Line 69 message. -/
def cantRunLine (bin : Str) : Str :=
  "[ERROR] No se puede ejecutar FFmpeg en: ".toList ++ bin

/-- Line 71 message. -/
def corruptLine (bin : Str) : Str :=
  "[ERROR] FFmpeg parece estar corrupto o no es ejecutable: ".toList ++ bin

/-- Line 67: the availability-probe command `[ffmpeg_bin, "-version"]`. -/
def probeCmd (cfg : Config) : List Str := [cfg.ffmpeg, "-version".toList]

/-- Effects accumulated before planning: the probe invocation (line 67)
and the creation of the output root (line 142). -/
def effs0 (cfg : Config) : List Effect :=
  [Effect.invoke (probeCmd cfg), Effect.mkdir []]

/-- The counting pass of a run (lines 165-173), started on the initial
filesystem. -/
def st1Of (cfg : Config) (fs0 : List Dest) (jobs : List Job) : St1 :=
  pass1 cfg.overwrite jobs ⟨fs0, effs0 cfg, 0⟩

/-- Output emitted before the execution pass: telephony advisory and the
two count lines (lines 153, 175-176). -/
def headerOf (cfg : Config) (total : Nat) : List Str :=
  (telephonyStep cfg (parseFormats cfg.formats)).2
    ++ [foundLine (audioOf cfg).length, tasksLine total]

/-- The execution pass of a run (lines 181-211), using the post-preset
options and starting from the counting pass's filesystem. -/
def st2Of (cfg : Config) (fs0 : List Dest) (exe : List Str → ExeResult)
    (jobs : List Job) : St2 :=
  pass2 (telephonyStep cfg (parseFormats cfg.formats)).1
    (st1Of cfg fs0 jobs).total exe jobs
    ⟨(st1Of cfg fs0 jobs).fs, (st1Of cfg fs0 jobs).effs,
     headerOf cfg (st1Of cfg fs0 jobs).total, 0⟩

/-- Lines 119-213 of `main()`, starting after `resolve_ffmpeg` (the
executable path is taken as resolved in `cfg.ffmpeg`): availability probe
(lines 64-71), output-root creation, format parsing, telephony preset,
file discovery, counting pass, execution pass.  `none` models an uncaught
exception aborting the process. -/
def mainRun (cfg : Config) (fs0 : List Dest) (exe : List Str → ExeResult) :
    Option RunResult :=
  match exe (probeCmd cfg) with
  | ExeResult.raised _ => none
  | ExeResult.launchFail _ =>
    some ⟨1, [cantRunLine cfg.ffmpeg], [Effect.invoke (probeCmd cfg)], 0, 0⟩
  | ExeResult.fail _ =>
    some ⟨1, [corruptLine cfg.ffmpeg], [Effect.invoke (probeCmd cfg)], 0, 0⟩
  | ExeResult.ok =>
    if parseFormats cfg.formats = [] then
      some ⟨0, [noFormatsLine], effs0 cfg, 0, 0⟩
    else if audioOf cfg = [] then
      some ⟨0, (telephonyStep cfg (parseFormats cfg.formats)).2
              ++ [noFilesLine cfg.inDir], effs0 cfg, 0, 0⟩
    else
      match attachDests (jobPairs (audioOf cfg) (parseFormats cfg.formats)) with
      | none => none
      | some jobs =>
        if (st1Of cfg fs0 jobs).total = 0 then
          some ⟨0, headerOf cfg (st1Of cfg fs0 jobs).total ++ [nadaLine],
                (st1Of cfg fs0 jobs).effs, (st1Of cfg fs0 jobs).total, 0⟩
        else
          some ⟨0, (st2Of cfg fs0 exe jobs).out ++ [finalLine],
                (st2Of cfg fs0 exe jobs).effs, (st1Of cfg fs0 jobs).total,
                (st2Of cfg fs0 exe jobs).done⟩

/-- The always-succeeding external executable. -/
def exeOk : List Str → ExeResult := fun _ => ExeResult.ok

/-- Projection of a run that completed without an uncaught exception
(exit 255 is a sentinel never produced by `mainRun`). -/
def forced (o : Option RunResult) : RunResult :=
  match o with
  | some r => r
  | none => ⟨255, [], [], 0, 0⟩

/-! ## Helper lemmas -/

lemma append_singleton_inj {α : Type} {as bs : List α} {a b : α}
    (h : as ++ [a] = bs ++ [b]) : as = bs ∧ a = b := by
  have h' := congrArg List.reverse h
  simp only [List.reverse_append, List.reverse_cons, List.reverse_nil,
    List.nil_append] at h'
  obtain ⟨h1, h2⟩ := List.cons.inj h'
  exact ⟨by simpa using congrArg List.reverse h2, h1⟩

lemma lstripDots_head (l : Str) : (lstripDots l).head? ≠ some '.' := by
  induction l with
  | nil => simp [lstripDots]
  | cons c cs ih =>
    by_cases h : c = '.'
    · simpa [lstripDots, List.dropWhile_cons, h] using ih
    · simp [lstripDots, List.dropWhile_cons, h]

lemma lstripDots_cons_dot (l : Str) : lstripDots ('.' :: l) = lstripDots l := by
  simp [lstripDots, List.dropWhile_cons]

lemma lstripDots_no_dot (l : Str) (h : l.head? ≠ some '.') : lstripDots l = l := by
  cases l with
  | nil => rfl
  | cons c cs =>
    have : ¬ c = '.' := by simpa using h
    simp [lstripDots, List.dropWhile_cons, this]

lemma mem_parseFormats (f x : Str) (h : x ∈ parseFormats f) :
    ∃ w : Str, x = '.' :: w ∧ w.head? ≠ some '.' := by
  simp only [parseFormats, List.mem_filterMap] at h
  obtain ⟨t, -, ht⟩ := h
  by_cases he : pyStrip t = []
  · simp [he] at ht
  · simp only [he, if_false, ite_false, Option.some.injEq] at ht
    exact ⟨lstripDots (pyLower (pyStrip t)), ht.symm, lstripDots_head _⟩

lemma splitComma_no_comma (t : Str) (h : ',' ∉ t) : splitComma t = [t] := by
  induction t with
  | nil => rfl
  | cons c cs ih =>
    have hc : ¬ c = ',' := fun e => h (e ▸ List.mem_cons_self c cs)
    have ht : splitComma cs = [cs] := ih fun m => h (List.mem_cons_of_mem _ m)
    simp [splitComma, hc, ht]

/-! ## C6: the command builder is pure and deterministic -/

/-- C6: the command builder is a pure, deterministic function: two
evaluations on equal inputs (under arbitrary worlds) yield the same
argument list, and the world (filesystem and effect trace) is returned
unchanged — no side effects, no filesystem access. -/
theorem C6_builder_pure (w w' : List Dest × List Effect) (bin src dst : Str)
    (a : Config) (bin' src' dst' : Str) (a' : Config)
    (h1 : bin = bin') (h2 : src = src') (h3 : dst = dst') (h4 : a = a') :
    (buildInWorld w bin src dst a).1 = (buildInWorld w' bin' src' dst' a').1
    ∧ (buildInWorld w bin src dst a).2 = w := by
  subst h1; subst h2; subst h3; subst h4; exact ⟨rfl, rfl⟩

def cfgA : Config :=
  ⟨"ffmpeg".toList, "/in".toList, "/out".toList, "mp3".toList, some "128k".toList,
   some 44100, some 2, true, true, false, false, [⟨[], "a.wav".toList⟩]⟩

theorem C6_builder_pure_witness :
    (buildInWorld (([] : List Dest), ([] : List Effect)) "ffmpeg".toList
        "/in/a.wav".toList "/out/mp3/a.mp3".toList cfgA).1
      = (buildInWorld ([["q".toList]], [Effect.mkdir []]) "ffmpeg".toList
        "/in/a.wav".toList "/out/mp3/a.mp3".toList cfgA).1
    ∧ (buildInWorld (([] : List Dest), ([] : List Effect)) "ffmpeg".toList
        "/in/a.wav".toList "/out/mp3/a.mp3".toList cfgA).2 = ([], []) :=
  C6_builder_pure _ _ _ _ _ _ _ _ _ _ rfl rfl rfl rfl

/-! ## C4: telephony preset -/

def cfgC4 : Config :=
  ⟨"ffmpeg".toList, "/in".toList, "/out".toList, "wav".toList, none,
   some 8000, none, false, false, false, true, []⟩

/-- C4 counterexample: with `--telephony` and a user-supplied
`--samplerate 8000`, the post-preset sample rate is 8000 although the
user did supply it, so "the sample rate is 8000 exactly when the user did
not supply --samplerate" fails as a biconditional. -/
theorem C4_counterexample :
    ¬(((telephonyStep cfgC4 [".wav".toList]).1.samplerate = some 8000)
      ↔ cfgC4.samplerate = none) := by decide

/-- C4 (amended): with `--telephony`, the sample rate becomes 8000 when the
user did not supply one and the user's value otherwise, and likewise the
channel count becomes 1; user-supplied values are never overridden. -/
theorem C4_telephony_defaults (cfg : Config) (targets : List Str)
    (h : cfg.telephony = true) :
    (telephonyStep cfg targets).1.samplerate = some (cfg.samplerate.getD 8000)
    ∧ (telephonyStep cfg targets).1.channels = some (cfg.channels.getD 1)
    ∧ (∀ v, cfg.samplerate = some v → (telephonyStep cfg targets).1.samplerate = some v)
    ∧ (∀ v, cfg.channels = some v → (telephonyStep cfg targets).1.channels = some v) := by
  refine ⟨by simp [telephonyStep, h], by simp [telephonyStep, h], ?_, ?_⟩
  · intro v hv; simp [telephonyStep, h, hv]
  · intro v hv; simp [telephonyStep, h, hv]

def cfgC4w : Config :=
  ⟨"ffmpeg".toList, "/in".toList, "/out".toList, "wav".toList, none,
   none, some 2, false, false, false, true, []⟩

theorem C4_telephony_defaults_witness :
    (telephonyStep cfgC4w []).1.samplerate = some 8000
    ∧ (telephonyStep cfgC4w []).1.channels = some 2 := by
  have h := C4_telephony_defaults cfgC4w [] rfl
  exact ⟨h.1, h.2.2.2 2 rfl⟩

/-! ## C10: normalization of the --formats value -/

/-- C10: each comma-separated token is trimmed, lowercased, stripped of
leading dots and prefixed with one dot; empty tokens are dropped; case and
leading-dot variants of a format coincide; duplicates are kept. -/
theorem C10_formats_normalized :
    (∀ f : Str, ∀ x ∈ parseFormats f, ∃ w : Str, x = '.' :: w ∧ w.head? ≠ some '.')
    ∧ parseFormats "WAV".toList = [".wav".toList]
    ∧ parseFormats " wav ".toList = [".wav".toList]
    ∧ parseFormats ".wav".toList = [".wav".toList]
    ∧ parseFormats "wav,WAV,.wav".toList = [".wav".toList, ".wav".toList, ".wav".toList]
    ∧ parseFormats "wav,, ,mp3".toList = [".wav".toList, ".mp3".toList]
    ∧ (∀ t : Str, ',' ∉ t →
        parseFormats t = if pyStrip t = [] then []
          else ['.' :: lstripDots (pyLower (pyStrip t))]) := by
  refine ⟨fun f x h => mem_parseFormats f x h, by decide, by decide, by decide,
    by decide, by decide, ?_⟩
  intro t ht
  unfold parseFormats
  rw [splitComma_no_comma t ht]
  by_cases h : pyStrip t = [] <;> simp [h]

theorem C10_formats_normalized_witness :
    (∃ w : Str, (".flac".toList : Str) = '.' :: w ∧ w.head? ≠ some '.')
    ∧ parseFormats "wav".toList = (if pyStrip "wav".toList = [] then []
        else ['.' :: lstripDots (pyLower (pyStrip "wav".toList))]) :=
  ⟨C10_formats_normalized.1 "flac".toList ".flac".toList (by decide),
   C10_formats_normalized.2.2.2.2.2.2 "wav".toList (by decide)⟩

/-! ## C2: empty parsed format list -/

def cfgC2 : Config :=
  ⟨"ffmpeg".toList, "/in".toList, "/out".toList, " , ".toList, none, none, none,
   false, false, false, false, [⟨[], "a.mp3".toList⟩]⟩

def rC2 : RunResult :=
  ⟨0, [noFormatsLine],
   [Effect.invoke [cfgC2.ffmpeg, "-version".toList], Effect.mkdir []], 0, 0⟩

/-- C2 counterexample: with `--formats " , "` (no non-empty token) the run
prints the error message but terminates with exit status 0, not nonzero:
line 148 is a plain `return` from `main`, unlike the `sys.exit` paths. -/
theorem C2_counterexample : mainRun cfgC2 [] exeOk = some rC2 := by decide

/-- C2 (amended): when the availability probe succeeds and the parsed
format list is empty, the process terminates with exit status zero after
printing the user-facing error message, and no jobs are planned or
attempted (no executable invocation beyond the probe). -/
theorem C2_empty_formats (cfg : Config) (fs0 : List Dest)
    (exe : List Str → ExeResult) (r : RunResult)
    (hp : exe [cfg.ffmpeg, "-version".toList] = ExeResult.ok)
    (hf : parseFormats cfg.formats = []) (h : mainRun cfg fs0 exe = some r) :
    r.exit = 0 ∧ noFormatsLine ∈ r.output ∧ r.planned = 0 ∧ r.attempted = 0
    ∧ ∀ c, Effect.invoke c ∈ r.effects → c = [cfg.ffmpeg, "-version".toList] := by
  simp only [mainRun, probeCmd, hp, hf, if_true, ite_true, Option.some.injEq] at h
  subst h
  refine ⟨rfl, List.mem_singleton_self _, rfl, rfl, ?_⟩
  intro c hc
  simp only [effs0, probeCmd, List.mem_cons, List.not_mem_nil, or_false] at hc
  rcases hc with hc | hc
  · exact Effect.invoke.inj hc
  · exact Effect.noConfusion hc

theorem C2_empty_formats_witness :
    rC2.exit = 0 ∧ noFormatsLine ∈ rC2.output ∧ rC2.planned = 0 ∧ rC2.attempted = 0
    ∧ ∀ c, Effect.invoke c ∈ rC2.effects → c = [cfgC2.ffmpeg, "-version".toList] :=
  C2_empty_formats cfgC2 [] exeOk rC2 rfl (by decide) (by decide)

/-! ## C3: bitrate application by destination extension -/

def bFlag : Str := "-b:a".toList

lemma bFlag_mem_bArgs (b : Option Str) :
    bFlag ∈ bArgs b ↔ ∃ s, b = some s ∧ s ≠ [] := by
  cases b with
  | none => simp [bArgs]
  | some s =>
    by_cases h : s = []
    · simp [bArgs, h]
    · simp only [bArgs, h, if_neg, ite_false, List.mem_cons, Option.some.injEq]
      constructor
      · intro _; exact ⟨s, rfl, h⟩
      · intro _; exact Or.inl rfl

lemma bFlag_not_mem_afArgs (nm : Bool) : bFlag ∉ afArgs nm := by
  cases nm <;> decide

lemma bFlag_not_mem_arArgs (sr : Option Int)
    (h : ∀ n : Int, sr = some n → (toString n).toList ≠ bFlag) :
    bFlag ∉ arArgs sr := by
  cases sr with
  | none => simp [arArgs]
  | some n =>
    by_cases h0 : n = 0
    · simp [arArgs, h0]
    · intro hc
      simp only [arArgs, h0, if_neg, ite_false, List.mem_cons,
        List.not_mem_nil, or_false] at hc
      rcases hc with hc | hc
      · exact absurd hc (by decide)
      · exact h n rfl hc.symm

lemma bFlag_not_mem_acArgs (ch : Option Nat)
    (h : ∀ n : Nat, ch = some n → (toString n).toList ≠ bFlag) :
    bFlag ∉ acArgs ch := by
  cases ch with
  | none => simp [acArgs]
  | some n =>
    by_cases h0 : n = 0
    · simp [acArgs, h0]
    · intro hc
      simp only [acArgs, h0, if_neg, ite_false, List.mem_cons,
        List.not_mem_nil, or_false] at hc
      rcases hc with hc | hc
      · exact absurd hc (by decide)
      · exact h n rfl hc.symm

lemma bFlag_notin_fixed (bin src : Str) (ow : Bool)
    (hb : bin ≠ bFlag) (hs : src ≠ bFlag) :
    bFlag ∉ [bin, "-hide_banner".toList, "-loglevel".toList, "error".toList,
      (if ow then "-y" else "-n").toList, "-i".toList, src] := by
  intro hc
  rcases List.mem_cons.mp hc with h | hc
  · exact hb h.symm
  rcases List.mem_cons.mp hc with h | hc
  · exact absurd h (by decide)
  rcases List.mem_cons.mp hc with h | hc
  · exact absurd h (by decide)
  rcases List.mem_cons.mp hc with h | hc
  · exact absurd h (by decide)
  rcases List.mem_cons.mp hc with h | hc
  · cases ow <;> exact absurd h (by decide)
  rcases List.mem_cons.mp hc with h | hc
  · exact absurd h (by decide)
  rcases List.mem_cons.mp hc with h | hc
  · exact hs h.symm
  · exact absurd hc (List.not_mem_nil _)

lemma bFlag_mem_build (bin src dst : Str) (a : Config)
    (hb : bin ≠ bFlag) (hs : src ≠ bFlag) (hd : dst ≠ bFlag)
    (har : ∀ n : Int, a.samplerate = some n → (toString n).toList ≠ bFlag)
    (hac : ∀ n : Nat, a.channels = some n → (toString n).toList ≠ bFlag) :
    bFlag ∈ build_ffmpeg_cmd bin src dst a
    ↔ bFlag ∈ codecArgs (pyLower (pyPathSuffix dst)) a.bitrate := by
  have h1 := bFlag_notin_fixed bin src a.overwrite hb hs
  have h2 := bFlag_not_mem_afArgs a.normalize
  have h3 := bFlag_not_mem_arArgs a.samplerate har
  have h4 := bFlag_not_mem_acArgs a.channels hac
  have h5 : bFlag ∉ [dst] := by
    intro hc; exact hd (List.mem_singleton.mp hc).symm
  unfold build_ffmpeg_cmd
  simp only [List.mem_append]
  tauto

def cfgC3 : Config :=
  ⟨"ffmpeg".toList, "/in".toList, "/out".toList, "mp3".toList, some [],
   none, none, false, false, false, false, []⟩

/-- C3 counterexample: a bitrate option supplied as the empty string
(`--bitrate ""`) is falsy in Python, so `build_ffmpeg_cmd` omits the
bitrate argument for an mp3 destination even though a bitrate option was
supplied — the "if and only if supplied" direction fails. -/
theorem C3_counterexample :
    cfgC3.bitrate.isSome = true
    ∧ pyLower (pyPathSuffix "/out/mp3/a.mp3".toList) = ".mp3".toList
    ∧ "-b:a".toList ∉
        build_ffmpeg_cmd "ffmpeg".toList "/in/a.wav".toList
          "/out/mp3/a.mp3".toList cfgC3 := by decide

/-- C3 (amended): when the destination extension is lossy (mp3, aac, m4a,
opus, ogg), the built command contains the bitrate argument iff a
non-empty bitrate option was supplied; for flac, wav, aiff, aif it never
contains a bitrate argument.  (The non-confusion hypotheses rule out the
other argument strings accidentally equalling `-b:a`.) -/
theorem C3_bitrate_policy (bin src dst : Str) (a : Config)
    (hb : bin ≠ bFlag) (hs : src ≠ bFlag) (hd : dst ≠ bFlag)
    (har : ∀ n : Int, a.samplerate = some n → (toString n).toList ≠ bFlag)
    (hac : ∀ n : Nat, a.channels = some n → (toString n).toList ≠ bFlag) :
    ((pyLower (pyPathSuffix dst)
        ∈ [".mp3", ".aac", ".m4a", ".opus", ".ogg"].map String.toList →
      (bFlag ∈ build_ffmpeg_cmd bin src dst a ↔ ∃ b, a.bitrate = some b ∧ b ≠ []))
    ∧ (pyLower (pyPathSuffix dst)
        ∈ [".flac", ".wav", ".aiff", ".aif"].map String.toList →
      bFlag ∉ build_ffmpeg_cmd bin src dst a)) := by
  constructor
  · intro hext
    rw [bFlag_mem_build bin src dst a hb hs hd har hac]
    have hcases : pyLower (pyPathSuffix dst) = ".mp3".toList
        ∨ pyLower (pyPathSuffix dst) = ".aac".toList
        ∨ pyLower (pyPathSuffix dst) = ".m4a".toList
        ∨ pyLower (pyPathSuffix dst) = ".opus".toList
        ∨ pyLower (pyPathSuffix dst) = ".ogg".toList := by simpa using hext
    have hmp3 : bFlag ∉ ["-c:a".toList, "libmp3lame".toList] := by decide
    have haac : bFlag ∉ ["-c:a".toList, "aac".toList] := by decide
    have hopus : bFlag ∉ ["-c:a".toList, "libopus".toList] := by decide
    have hogg : bFlag ∉ ["-c:a".toList, "libvorbis".toList] := by decide
    rcases hcases with h | h | h | h | h <;> rw [h]
    · rw [show codecArgs ".mp3".toList a.bitrate
          = ["-c:a".toList, "libmp3lame".toList] ++ bArgs a.bitrate from rfl]
      simp only [List.mem_append]
      rw [bFlag_mem_bArgs]
      tauto
    · rw [show codecArgs ".aac".toList a.bitrate
          = ["-c:a".toList, "aac".toList] ++ bArgs a.bitrate from rfl]
      simp only [List.mem_append]
      rw [bFlag_mem_bArgs]
      tauto
    · rw [show codecArgs ".m4a".toList a.bitrate
          = ["-c:a".toList, "aac".toList] ++ bArgs a.bitrate from rfl]
      simp only [List.mem_append]
      rw [bFlag_mem_bArgs]
      tauto
    · rw [show codecArgs ".opus".toList a.bitrate
          = ["-c:a".toList, "libopus".toList] ++ bArgs a.bitrate from rfl]
      simp only [List.mem_append]
      rw [bFlag_mem_bArgs]
      tauto
    · rw [show codecArgs ".ogg".toList a.bitrate
          = ["-c:a".toList, "libvorbis".toList] ++ bArgs a.bitrate from rfl]
      simp only [List.mem_append]
      rw [bFlag_mem_bArgs]
      tauto
  · intro hext
    rw [bFlag_mem_build bin src dst a hb hs hd har hac]
    have hcases : pyLower (pyPathSuffix dst) = ".flac".toList
        ∨ pyLower (pyPathSuffix dst) = ".wav".toList
        ∨ pyLower (pyPathSuffix dst) = ".aiff".toList
        ∨ pyLower (pyPathSuffix dst) = ".aif".toList := by simpa using hext
    rcases hcases with h | h | h | h <;> rw [h]
    · rw [show codecArgs ".flac".toList a.bitrate
          = ["-c:a".toList, "flac".toList] from rfl]
      decide
    · rw [show codecArgs ".wav".toList a.bitrate
          = ["-c:a".toList, "pcm_s16le".toList] from rfl]
      decide
    · rw [show codecArgs ".aiff".toList a.bitrate
          = ["-c:a".toList, "pcm_s16le".toList] from rfl]
      decide
    · rw [show codecArgs ".aif".toList a.bitrate
          = ["-c:a".toList, "pcm_s16le".toList] from rfl]
      decide

def cfgC3w : Config :=
  ⟨"ffmpeg".toList, "/in".toList, "/out".toList, "mp3,flac".toList,
   some "128k".toList, none, none, false, false, false, false, []⟩

theorem C3_bitrate_policy_witness :
    (bFlag ∈ build_ffmpeg_cmd "ffmpeg".toList "/in/a.wav".toList
        "/out/mp3/a.mp3".toList cfgC3w
      ↔ ∃ b, cfgC3w.bitrate = some b ∧ b ≠ [])
    ∧ bFlag ∉ build_ffmpeg_cmd "ffmpeg".toList "/in/a.wav".toList
        "/out/flac/a.flac".toList cfgC3w := by
  constructor
  · exact (C3_bitrate_policy "ffmpeg".toList "/in/a.wav".toList
      "/out/mp3/a.mp3".toList cfgC3w (by decide) (by decide) (by decide)
      (fun n hn => Option.noConfusion hn) (fun n hn => Option.noConfusion hn)).1
      (by decide)
  · exact (C3_bitrate_policy "ffmpeg".toList "/in/a.wav".toList
      "/out/flac/a.flac".toList cfgC3w (by decide) (by decide) (by decide)
      (fun n hn => Option.noConfusion hn) (fun n hn => Option.noConfusion hn)).2
      (by decide)

/-! ## C1: distinctness of planned destinations -/

def cfgC1 : Config :=
  ⟨"ffmpeg".toList, "/in".toList, "/out".toList, "flac".toList, none, none, none,
   false, false, false, false, [⟨[], "a.mp3".toList⟩, ⟨[], "a.wav".toList⟩]⟩

/-- C1 counterexample: the discovered files `a.mp3` and `a.wav` with
target format `flac` give two distinct (source, format) pairs whose
computed destinations (`flac/a.flac`) are identical, since the suffix is
replaced before namespacing. -/
theorem C1_counterexample :
    jobsOf cfgC1 = some
      [(⟨[], "a.mp3".toList⟩, ".flac".toList, ["flac".toList, "a.flac".toList]),
       (⟨[], "a.wav".toList⟩, ".flac".toList, ["flac".toList, "a.flac".toList])]
    ∧ (⟨[], "a.mp3".toList⟩ : RelPath) ≠ ⟨[], "a.wav".toList⟩ := by decide

/-- C1 (amended): two (source, target format) pairs drawn from the
parsed formats receive distinct destinations provided the formats differ,
or the sources' directory parts differ, or the sources' names with the
suffix removed differ; destinations can only collide for two sources
whose relative paths agree after dropping the suffix. -/
theorem C1_dest_disjoint (f : Str) (s1 s2 : RelPath) (e1 e2 : Str)
    (d1 d2 : Dest)
    (he1 : e1 ∈ parseFormats f) (he2 : e2 ∈ parseFormats f)
    (hd1 : destOf s1 e1 = some d1) (hd2 : destOf s2 e2 = some d2)
    (hdiff : e1 ≠ e2 ∨ s1.dirs ≠ s2.dirs ∨ pyStem s1.name ≠ pyStem s2.name) :
    d1 ≠ d2 := by
  obtain ⟨w1, rfl, hw1⟩ := mem_parseFormats f e1 he1
  obtain ⟨w2, rfl, hw2⟩ := mem_parseFormats f e2 he2
  unfold destOf at hd1 hd2
  have hx1 : d1 = lstripDots ('.' :: w1)
      :: (s1.dirs ++ [pyStem s1.name ++ ('.' :: w1)]) := by
    by_cases hc : sufOk ('.' :: w1) ∧ s1.name ≠ []
    · rw [if_pos hc] at hd1; exact (Option.some.inj hd1).symm
    · rw [if_neg hc] at hd1; exact absurd hd1 (by simp)
  have hx2 : d2 = lstripDots ('.' :: w2)
      :: (s2.dirs ++ [pyStem s2.name ++ ('.' :: w2)]) := by
    by_cases hc : sufOk ('.' :: w2) ∧ s2.name ≠ []
    · rw [if_pos hc] at hd2; exact (Option.some.inj hd2).symm
    · rw [if_neg hc] at hd2; exact absurd hd2 (by simp)
  rw [lstripDots_cons_dot, lstripDots_no_dot w1 hw1] at hx1
  rw [lstripDots_cons_dot, lstripDots_no_dot w2 hw2] at hx2
  intro heq
  rw [hx1, hx2] at heq
  obtain ⟨hhead, htail⟩ := List.cons.inj heq
  obtain ⟨hdirs, hname⟩ := append_singleton_inj htail
  have hw : ('.' :: w1) = ('.' :: w2) := by rw [hhead]
  rw [hw] at hname
  have hstem := List.append_cancel_right hname
  rcases hdiff with h | h | h
  · exact h hw
  · exact h hdirs
  · exact h hstem

theorem C1_dest_disjoint_witness :
    (["wav".toList, "a.wav".toList] : Dest) ≠ ["mp3".toList, "a.mp3".toList] :=
  C1_dest_disjoint "wav,mp3".toList ⟨[], "a.flac".toList⟩ ⟨[], "a.flac".toList⟩
    ".wav".toList ".mp3".toList _ _ (by decide) (by decide) (by decide)
    (by decide) (Or.inl (by decide))

/-! ## Inversion of `mainRun` -/

lemma mainRun_shape (cfg : Config) (fs0 : List Dest)
    (exe : List Str → ExeResult) (r : RunResult)
    (h : mainRun cfg fs0 exe = some r) :
    r = ⟨1, [cantRunLine cfg.ffmpeg], [Effect.invoke (probeCmd cfg)], 0, 0⟩
    ∨ r = ⟨1, [corruptLine cfg.ffmpeg], [Effect.invoke (probeCmd cfg)], 0, 0⟩
    ∨ (exe (probeCmd cfg) = ExeResult.ok ∧
       ((parseFormats cfg.formats = []
          ∧ r = ⟨0, [noFormatsLine], effs0 cfg, 0, 0⟩)
        ∨ (audioOf cfg = []
          ∧ r = ⟨0, (telephonyStep cfg (parseFormats cfg.formats)).2
                ++ [noFilesLine cfg.inDir], effs0 cfg, 0, 0⟩)
        ∨ ∃ jobs,
            attachDests (jobPairs (audioOf cfg) (parseFormats cfg.formats))
              = some jobs
            ∧ parseFormats cfg.formats ≠ [] ∧ audioOf cfg ≠ []
            ∧ ((st1Of cfg fs0 jobs).total = 0
                ∧ r = ⟨0, headerOf cfg (st1Of cfg fs0 jobs).total ++ [nadaLine],
                      (st1Of cfg fs0 jobs).effs, (st1Of cfg fs0 jobs).total, 0⟩
              ∨ (st1Of cfg fs0 jobs).total ≠ 0
                ∧ r = ⟨0, (st2Of cfg fs0 exe jobs).out ++ [finalLine],
                      (st2Of cfg fs0 exe jobs).effs, (st1Of cfg fs0 jobs).total,
                      (st2Of cfg fs0 exe jobs).done⟩))) := by
  unfold mainRun at h
  cases hp : exe (probeCmd cfg) with
  | raised m => rw [hp] at h; exact absurd h (by simp)
  | launchFail m => rw [hp] at h; exact Or.inl (Option.some.inj h).symm
  | fail m => rw [hp] at h; exact Or.inr (Or.inl (Option.some.inj h).symm)
  | ok =>
    rw [hp] at h
    refine Or.inr (Or.inr ⟨rfl, ?_⟩)
    by_cases hf : parseFormats cfg.formats = []
    · rw [if_pos hf] at h; exact Or.inl ⟨hf, (Option.some.inj h).symm⟩
    rw [if_neg hf] at h
    by_cases ha : audioOf cfg = []
    · rw [if_pos ha] at h; exact Or.inr (Or.inl ⟨ha, (Option.some.inj h).symm⟩)
    rw [if_neg ha] at h
    refine Or.inr (Or.inr ?_)
    cases hj : attachDests (jobPairs (audioOf cfg) (parseFormats cfg.formats)) with
    | none => rw [hj] at h; exact absurd h (by simp)
    | some jobs =>
      simp only [hj] at h
      refine ⟨jobs, rfl, hf, ha, ?_⟩
      by_cases ht : (st1Of cfg fs0 jobs).total = 0
      · rw [if_pos ht] at h; exact Or.inl ⟨ht, (Option.some.inj h).symm⟩
      · rw [if_neg ht] at h; exact Or.inr ⟨ht, (Option.some.inj h).symm⟩

/-! ## C5: frame effects of a dry run -/

lemma telephonyStep_fields (cfg : Config) (targets : List Str) :
    (telephonyStep cfg targets).1.dryRun = cfg.dryRun
    ∧ (telephonyStep cfg targets).1.overwrite = cfg.overwrite := by
  unfold telephonyStep
  by_cases h : cfg.telephony <;> simp [h]

lemma pass1_effs_shape (ow : Bool) (jobs : List Job) :
    ∀ st : St1, ∀ ef ∈ (pass1 ow jobs st).effs,
      ef ∈ st.effs ∨ ∃ p, ef = Effect.mkdir p := by
  induction jobs with
  | nil => intro st ef h; exact Or.inl h
  | cons jb rest ih =>
    intro st ef h
    obtain ⟨s, e, d⟩ := jb
    rw [pass1] at h
    rcases ih _ ef h with h' | h'
    · rcases List.mem_append.mp h' with h'' | h''
      · exact Or.inl h''
      · exact Or.inr ⟨d.dropLast, List.mem_singleton.mp h''⟩
    · exact Or.inr h'

lemma stepSt2_dry_effs (cfg : Config) (total : Nat) (exe : List Str → ExeResult)
    (s : RelPath) (d : Dest) (st : St2) (hdry : cfg.dryRun = true) :
    (stepSt2 cfg total exe s d st).effs = st.effs := by
  unfold stepSt2
  simp [hdry, buildInWorld]

lemma pass2_dry_effs (cfg : Config) (total : Nat) (exe : List Str → ExeResult)
    (hdry : cfg.dryRun = true) (jobs : List Job) :
    ∀ st : St2, (pass2 cfg total exe jobs st).effs = st.effs := by
  induction jobs with
  | nil => intro st; rfl
  | cons jb rest ih =>
    intro st
    obtain ⟨s, e, d⟩ := jb
    rw [pass2]
    by_cases hskip : d ∈ st.fs ∧ cfg.overwrite = false
    · rw [if_pos hskip]; exact ih st
    · rw [if_neg hskip, ih, stepSt2_dry_effs cfg total exe s d st hdry]

def cfgC5 : Config :=
  ⟨"ffmpeg".toList, "/in".toList, "/out".toList, "wav".toList, none, none, none,
   false, false, true, false, [⟨[], "a.mp3".toList⟩]⟩

/-- C5 counterexample: even with `--dry-run` the program invokes the
external executable once — the availability probe `ffmpeg -version` of
`check_ffmpeg_available` runs before planning regardless of dry-run, so
"never invokes the external executable" fails. -/
theorem C5_counterexample :
    cfgC5.dryRun = true
    ∧ (mainRun cfgC5 [] exeOk).isSome = true
    ∧ Effect.invoke [cfgC5.ffmpeg, "-version".toList]
        ∈ (forced (mainRun cfgC5 [] exeOk)).effects := by decide

/-- C5 (amended): in a dry run, the only invocation of the external
executable is the availability probe (`ffmpeg -version`), and every other
effect is a directory creation — no file is created, modified or deleted
and no conversion command is ever executed. -/
theorem C5_dry_run_frame (cfg : Config) (fs0 : List Dest)
    (exe : List Str → ExeResult) (r : RunResult)
    (hdry : cfg.dryRun = true) (h : mainRun cfg fs0 exe = some r) :
    ∀ ef ∈ r.effects,
      ef = Effect.invoke (probeCmd cfg) ∨ ∃ p, ef = Effect.mkdir p := by
  have heffs0 : ∀ ef ∈ effs0 cfg,
      ef = Effect.invoke (probeCmd cfg) ∨ ∃ p, ef = Effect.mkdir p := by
    intro ef hef
    simp only [effs0, List.mem_cons, List.not_mem_nil, or_false] at hef
    rcases hef with hef | hef
    · exact Or.inl hef
    · exact Or.inr ⟨[], hef⟩
  rcases mainRun_shape cfg fs0 exe r h with hr | hr
    | ⟨-, ⟨-, hr⟩ | ⟨-, hr⟩ | ⟨jobs, -, -, -, hr⟩⟩
  · intro ef hef
    rw [hr] at hef
    exact Or.inl (List.mem_singleton.mp hef)
  · intro ef hef
    rw [hr] at hef
    exact Or.inl (List.mem_singleton.mp hef)
  · intro ef hef; rw [hr] at hef; exact heffs0 ef hef
  · intro ef hef; rw [hr] at hef; exact heffs0 ef hef
  · rcases hr with ⟨-, hr⟩ | ⟨-, hr⟩
    · intro ef hef
      rw [hr] at hef
      rcases pass1_effs_shape cfg.overwrite jobs _ ef hef with h' | h'
      · exact heffs0 ef h'
      · exact Or.inr h'
    · intro ef hef
      rw [hr] at hef
      have hd2 : (telephonyStep cfg (parseFormats cfg.formats)).1.dryRun = true := by
        rw [(telephonyStep_fields cfg (parseFormats cfg.formats)).1, hdry]
      unfold st2Of at hef
      rw [pass2_dry_effs _ _ _ hd2] at hef
      rcases pass1_effs_shape cfg.overwrite jobs _ ef hef with h' | h'
      · exact heffs0 ef h'
      · exact Or.inr h'

theorem C5_dry_run_frame_witness :
    Effect.mkdir ([] : Dest) = Effect.invoke (probeCmd cfgC5)
    ∨ ∃ p, Effect.mkdir ([] : Dest) = Effect.mkdir p :=
  C5_dry_run_frame cfgC5 [] exeOk (forced (mainRun cfgC5 [] exeOk)) rfl
    (by decide) (Effect.mkdir []) (by decide)

/-! ## C7: the number of planned jobs -/

lemma jobPairs_length (files : List RelPath) (ts : List Str) :
    (jobPairs files ts).length = files.length * ts.length := by
  induction files with
  | nil => simp [jobPairs]
  | cons s rest ih =>
    simp only [jobPairs, List.length_append, List.length_map, ih,
      List.length_cons]
    ring

lemma attachDests_length (ps : List (RelPath × Str)) :
    ∀ js : List Job, attachDests ps = some js → js.length = ps.length := by
  induction ps with
  | nil =>
    intro js h
    simp only [attachDests, Option.some.injEq] at h
    rw [← h]; rfl
  | cons p rest ih =>
    intro js h
    obtain ⟨s, e⟩ := p
    rw [attachDests] at h
    cases hd : destOf s e with
    | none => rw [hd] at h; exact absurd h (by simp)
    | some d =>
      rw [hd] at h
      cases ha : attachDests rest with
      | none => rw [ha] at h; exact absurd h (by simp)
      | some js' =>
        rw [ha] at h
        have := Option.some.inj h
        rw [← this]
        simp only [List.length_cons, ih js' ha]

lemma pass1_total_of_ow (jobs : List Job) :
    ∀ st : St1, (pass1 true jobs st).total = st.total + jobs.length := by
  induction jobs with
  | nil => intro st; simp [pass1]
  | cons jb rest ih =>
    intro st
    obtain ⟨s, e, d⟩ := jb
    rw [pass1]
    have hc : ¬(d ∈ parentsOf d ++ st.fs ∧ true = false) := by simp
    rw [if_neg hc]
    rw [ih]
    simp only [List.length_cons]
    omega

/-- The ordering guarantee of `Path.rglob`: directories are walked in
pre-order, so all direct entries of a directory are yielded before any
entry of its subdirectories.  Consequently a file listed EARLIER is never
located strictly below a subdirectory of a LATER file's parent: for `a`
before `b`, `b.dirs` is not a strict prefix of `a.dirs`. -/
abbrev rglobOrd (a b : RelPath) : Prop :=
  ¬(b.dirs.length < a.dirs.length
    ∧ a.dirs.take b.dirs.length = b.dirs)

lemma rglobOrd_self (a : RelPath) : rglobOrd a a := fun hc => absurd hc.1 (by omega)

lemma mem_parentsOf {p d : Dest} (h : p ∈ parentsOf d) :
    ∃ i, i < d.length ∧ 0 < i ∧ p = d.take i := by
  unfold parentsOf at h
  rw [List.mem_filter] at h
  obtain ⟨hmem, hne⟩ := h
  rw [List.mem_map] at hmem
  obtain ⟨i, hi, hp⟩ := hmem
  rw [List.mem_range] at hi
  have hne' : p ≠ [] := by simpa using hne
  refine ⟨i, hi, ?_, hp.symm⟩
  rcases Nat.eq_zero_or_pos i with h0 | h0
  · subst h0
    rw [List.take_zero] at hp
    exact absurd hp.symm hne'
  · exact h0

lemma self_not_mem_parentsOf (d : Dest) : d ∉ parentsOf d := by
  intro h
  obtain ⟨i, hi, -, hp⟩ := mem_parentsOf h
  have := congrArg List.length hp
  rw [List.length_take] at this
  omega

lemma destOf_shape (s : RelPath) (w : Str) (d : Dest)
    (hw : w.head? ≠ some '.') (hd : destOf s ('.' :: w) = some d) :
    d = w :: (s.dirs ++ [pyStem s.name ++ ('.' :: w)]) := by
  unfold destOf at hd
  by_cases hc : sufOk ('.' :: w) ∧ s.name ≠ []
  · rw [if_pos hc] at hd
    rw [(Option.some.inj hd).symm, lstripDots_cons_dot, lstripDots_no_dot w hw]
  · rw [if_neg hc] at hd; exact absurd hd (by simp)

/-- An earlier job's destination never has a later (or equal) job's
destination among its parent directories, provided the source listing
respects the `rglob` traversal order. -/
lemma dest_not_parent (s1 s2 : RelPath) (e1 e2 : Str) (d1 d2 : Dest)
    (hw1 : ∃ w, e1 = '.' :: w ∧ w.head? ≠ some '.')
    (hw2 : ∃ w, e2 = '.' :: w ∧ w.head? ≠ some '.')
    (hd1 : destOf s1 e1 = some d1) (hd2 : destOf s2 e2 = some d2)
    (hnd : rglobOrd s1 s2) :
    d2 ∉ parentsOf d1 := by
  intro hmem
  obtain ⟨i, hilt, hipos, htake⟩ := mem_parentsOf hmem
  obtain ⟨w1, rfl, hw1h⟩ := hw1
  obtain ⟨w2, rfl, hw2h⟩ := hw2
  have hx1 := destOf_shape s1 w1 d1 hw1h hd1
  have hx2 := destOf_shape s2 w2 d2 hw2h hd2
  obtain ⟨i', rfl⟩ : ∃ i', i = i' + 1 := ⟨i - 1, by omega⟩
  rw [hx1, hx2, List.take_succ_cons] at htake
  obtain ⟨-, ht⟩ := List.cons.inj htake
  have hlen1 : i' ≤ s1.dirs.length := by
    have hd1l : d1.length = s1.dirs.length + 2 := by rw [hx1]; simp
    omega
  rw [List.take_append_of_le_length hlen1] at ht
  have hlen2 : s2.dirs.length + 1 = i' := by
    have hl := congrArg List.length ht
    simp only [List.length_append, List.length_singleton, List.length_take,
      Nat.min_eq_left hlen1] at hl
    omega
  apply hnd
  constructor
  · omega
  · have h2 : (s1.dirs.take i').take s2.dirs.length
        = s1.dirs.take s2.dirs.length := by
      rw [List.take_take, Nat.min_eq_left (by omega)]
    rw [← h2, ← ht, List.take_append_of_le_length (Nat.le_refl _),
      List.take_length]

lemma attachDests_props (ps : List (RelPath × Str)) :
    ∀ js : List Job, attachDests ps = some js →
      js.map (fun j => (j.1, j.2.1)) = ps
      ∧ ∀ j ∈ js, destOf j.1 j.2.1 = some j.2.2 := by
  induction ps with
  | nil =>
    intro js h
    simp only [attachDests, Option.some.injEq] at h
    subst h
    exact ⟨rfl, by simp⟩
  | cons p rest ih =>
    intro js h
    obtain ⟨s, e⟩ := p
    rw [attachDests] at h
    cases hd : destOf s e with
    | none => rw [hd] at h; exact absurd h (by simp)
    | some d =>
      rw [hd] at h
      cases ha : attachDests rest with
      | none => rw [ha] at h; exact absurd h (by simp)
      | some js' =>
        rw [ha] at h
        rw [← Option.some.inj h]
        obtain ⟨ihm, ihd⟩ := ih js' ha
        refine ⟨by simp [ihm], ?_⟩
        intro j hj
        rcases List.mem_cons.mp hj with hj | hj
        · subst hj; exact hd
        · exact ihd j hj

lemma mem_jobPairs (files : List RelPath) (targets : List Str) :
    ∀ p ∈ jobPairs files targets, p.1 ∈ files ∧ p.2 ∈ targets := by
  induction files with
  | nil => intro p hp; exact absurd hp (List.not_mem_nil _)
  | cons s rest ih =>
    intro p hp
    rw [jobPairs] at hp
    rcases List.mem_append.mp hp with hp | hp
    · obtain ⟨e, he, rfl⟩ := List.mem_map.mp hp
      exact ⟨List.mem_cons_self _ _, he⟩
    · obtain ⟨h1, h2⟩ := ih p hp
      exact ⟨List.mem_cons_of_mem _ h1, h2⟩

lemma jobPairs_pairwise (files : List RelPath) (targets : List Str)
    (h : files.Pairwise rglobOrd) :
    (jobPairs files targets).Pairwise (fun p q => rglobOrd p.1 q.1) := by
  induction files with
  | nil => exact List.Pairwise.nil
  | cons s rest ih =>
    rw [jobPairs, List.pairwise_append]
    obtain ⟨hs, hrest⟩ := List.pairwise_cons.mp h
    refine ⟨?_, ih hrest, ?_⟩
    · rw [List.pairwise_map]
      have hconst : ∀ l : List Str, l.Pairwise
          (fun _ _ : Str => rglobOrd s s) := by
        intro l
        induction l with
        | nil => exact List.Pairwise.nil
        | cons a t iht => exact List.Pairwise.cons (fun b _ => rglobOrd_self s) iht
      exact hconst targets
    · intro p hp q hq
      obtain ⟨e, -, rfl⟩ := List.mem_map.mp hp
      exact hs _ (mem_jobPairs rest targets q hq).1

lemma js_pairwise (files : List RelPath) (targets : List Str) (js : List Job)
    (hf : files.Pairwise rglobOrd)
    (ht : ∀ e ∈ targets, ∃ w, e = '.' :: w ∧ w.head? ≠ some '.')
    (hj : attachDests (jobPairs files targets) = some js) :
    js.Pairwise (fun a b => b.2.2 ∉ parentsOf a.2.2) := by
  obtain ⟨hmap, hdest⟩ := attachDests_props _ js hj
  have hpp := jobPairs_pairwise files targets hf
  rw [← hmap, List.pairwise_map] at hpp
  refine List.Pairwise.imp_of_mem ?_ hpp
  intro a b ha hb hR
  have hat : a.2.1 ∈ targets := by
    have hm : (a.1, a.2.1) ∈ jobPairs files targets := by
      rw [← hmap]; exact List.mem_map.mpr ⟨a, ha, rfl⟩
    exact (mem_jobPairs files targets _ hm).2
  have hbt : b.2.1 ∈ targets := by
    have hm : (b.1, b.2.1) ∈ jobPairs files targets := by
      rw [← hmap]; exact List.mem_map.mpr ⟨b, hb, rfl⟩
    exact (mem_jobPairs files targets _ hm).2
  exact dest_not_parent a.1 b.1 a.2.1 b.2.1 a.2.2 b.2.2
    (ht _ hat) (ht _ hbt) (hdest a ha) (hdest b hb) hR

lemma pass1_total_pairwise (jobs : List Job) :
    ∀ st : St1, (∀ j ∈ jobs, j.2.2 ∉ st.fs) →
      jobs.Pairwise (fun a b => b.2.2 ∉ parentsOf a.2.2) →
      (pass1 false jobs st).total = st.total + jobs.length := by
  induction jobs with
  | nil => intro st _ _; simp [pass1]
  | cons jb rest ih =>
    intro st h1 h2
    obtain ⟨s, e, d⟩ := jb
    obtain ⟨hhead, htail⟩ := List.pairwise_cons.mp h2
    rw [pass1]
    have hdnotin : ¬(d ∈ parentsOf d ++ st.fs ∧ false = false) := by
      intro hc
      rcases List.mem_append.mp hc.1 with hm | hm
      · exact self_not_mem_parentsOf d hm
      · exact h1 (s, e, d) (List.mem_cons_self _ _) hm
    have h1' : ∀ j ∈ rest, j.2.2 ∉ parentsOf d ++ st.fs := by
      intro j hj hm
      rcases List.mem_append.mp hm with hm' | hm'
      · exact hhead j hj hm'
      · exact h1 j (List.mem_cons_of_mem _ hj) hm'
    rw [if_neg hdnotin,
      ih ⟨parentsOf d ++ st.fs, st.effs ++ [Effect.mkdir d.dropLast],
        st.total + 1⟩ h1' htail]
    simp only [List.length_cons]
    omega

/-- C7: for every discovered file set S and requested format list F, a
run whose listing respects the `rglob` traversal order (a directory's
direct entries before its subdirectories' entries, `Pairwise rglobOrd`)
plans exactly `|S| * |F|` jobs when overwrite is true or when no computed
destination pre-exists on disk. -/
theorem C7_plan_count (cfg : Config) (fs0 : List Dest)
    (exe : List Str → ExeResult) (r : RunResult) (js : List Job)
    (h : mainRun cfg fs0 exe = some r) (hx : r.exit = 0)
    (hj : attachDests (jobPairs (audioOf cfg) (parseFormats cfg.formats))
      = some js)
    (hord : cfg.listing.Pairwise rglobOrd)
    (hok : cfg.overwrite = true ∨ ∀ j ∈ js, j.2.2 ∉ fs0) :
    r.planned = (audioOf cfg).length * (parseFormats cfg.formats).length := by
  have hlen : js.length = (audioOf cfg).length * (parseFormats cfg.formats).length := by
    rw [attachDests_length _ js hj, jobPairs_length]
  rcases mainRun_shape cfg fs0 exe r h with hr | hr
    | ⟨-, ⟨hf, hr⟩ | ⟨ha, hr⟩ | ⟨jobs, hj', -, -, hrest⟩⟩
  · rw [hr] at hx; simp at hx
  · rw [hr] at hx; simp at hx
  · rw [hr]; simp [hf]
  · rw [hr]; simp [ha]
  · have hjobs : jobs = js := by
      rw [hj] at hj'; exact (Option.some.inj hj').symm
    subst hjobs
    have htot : (st1Of cfg fs0 jobs).total = jobs.length := by
      unfold st1Of
      cases how : cfg.overwrite with
      | true => rw [pass1_total_of_ow]; simp
      | false =>
        rcases hok with hok | hfs0
        · rw [how] at hok; exact absurd hok (by decide)
        · have hordA : (audioOf cfg).Pairwise rglobOrd :=
            List.Pairwise.sublist (List.filter_sublist cfg.listing) hord
          have hpw := js_pairwise (audioOf cfg) (parseFormats cfg.formats)
            jobs hordA (fun e he => mem_parseFormats _ e he) hj
          rw [pass1_total_pairwise jobs ⟨fs0, effs0 cfg, 0⟩ hfs0 hpw]
          simp
    rcases hrest with ⟨-, hr⟩ | ⟨-, hr⟩
    · rw [hr]
      simpa [htot] using hlen
    · rw [hr]
      simpa [htot] using hlen

def cfgC7w : Config :=
  ⟨"ffmpeg".toList, "/in".toList, "/out".toList, "wav,flac".toList, none, none,
   none, false, false, false, false,
   [⟨[], "a.mp3".toList⟩, ⟨["b".toList], "c.wav".toList⟩]⟩

theorem C7_plan_count_witness :
    (forced (mainRun cfgC7w [] exeOk)).planned
      = (audioOf cfgC7w).length * (parseFormats cfgC7w.formats).length :=
  C7_plan_count cfgC7w [] exeOk (forced (mainRun cfgC7w [] exeOk))
    ((attachDests (jobPairs (audioOf cfgC7w) (parseFormats cfgC7w.formats))).getD [])
    (by decide) (by decide) (by decide) (by decide)
    (Or.inr (by decide))

/-! ## C8: attempted versus planned job counts -/

lemma pass1_fs_mono (ow : Bool) (jobs : List Job) :
    ∀ st : St1, ∀ p ∈ st.fs, p ∈ (pass1 ow jobs st).fs := by
  induction jobs with
  | nil => intro st p hp; exact hp
  | cons jb rest ih =>
    intro st p hp
    obtain ⟨s, e, d⟩ := jb
    rw [pass1]
    exact ih _ p (List.mem_append.mpr (Or.inr hp))

lemma pass1_fs_parents (ow : Bool) (jobs : List Job) :
    ∀ st : St1, ∀ j ∈ jobs, ∀ p ∈ parentsOf j.2.2, p ∈ (pass1 ow jobs st).fs := by
  induction jobs with
  | nil => intro st j hj; exact absurd hj (List.not_mem_nil _)
  | cons jb rest ih =>
    intro st j hj p hp
    obtain ⟨s, e, d⟩ := jb
    rw [pass1]
    rcases List.mem_cons.mp hj with hj | hj
    · subst hj
      exact pass1_fs_mono ow rest _ p (List.mem_append.mpr (Or.inl hp))
    · exact ih _ j hj p hp

lemma pass1_total_shift (ow : Bool) (jobs : List Job) :
    ∀ (fs : List Dest) (effs : List Effect) (n : Nat),
      (pass1 ow jobs ⟨fs, effs, n⟩).total
        = n + (pass1 ow jobs ⟨fs, effs, 0⟩).total := by
  induction jobs with
  | nil => intro fs effs n; simp [pass1]
  | cons jb rest ih =>
    intro fs effs n
    obtain ⟨s, e, d⟩ := jb
    rw [pass1, pass1]
    dsimp only
    by_cases hc : d ∈ parentsOf d ++ fs ∧ ow = false
    · rw [if_pos hc, if_pos hc, ih]
    · rw [if_neg hc, if_neg hc,
        ih (parentsOf d ++ fs) (effs ++ [Effect.mkdir d.dropLast]) (n + 1),
        ih (parentsOf d ++ fs) (effs ++ [Effect.mkdir d.dropLast]) (0 + 1)]
      omega

lemma stepSt2_done (cfg : Config) (total : Nat) (exe : List Str → ExeResult)
    (s : RelPath) (d : Dest) (st : St2) :
    (stepSt2 cfg total exe s d st).done = st.done + 1 := by
  unfold stepSt2
  dsimp only
  split
  · rfl
  · split <;> rfl

lemma stepSt2_fs_sup (cfg : Config) (total : Nat) (exe : List Str → ExeResult)
    (s : RelPath) (d : Dest) (st : St2) :
    ∀ p ∈ st.fs, p ∈ (stepSt2 cfg total exe s d st).fs := by
  intro p hp
  unfold stepSt2
  dsimp only
  split
  · exact hp
  · split
    · exact List.mem_cons_of_mem _ hp
    · exact hp
    · exact hp
    · exact hp

lemma stepSt2_fs_shift (cfg : Config) (total : Nat) (exe : List Str → ExeResult)
    (s : RelPath) (d : Dest) (fs : List Dest) (effs : List Effect)
    (out : List Str) (n : Nat) (effs' : List Effect) (out' : List Str) (n' : Nat) :
    (stepSt2 cfg total exe s d ⟨fs, effs, out, n⟩).fs
      = (stepSt2 cfg total exe s d ⟨fs, effs', out', n'⟩).fs := by
  unfold stepSt2
  simp only [buildInWorld]
  by_cases hdry : cfg.dryRun
  · simp [hdry]
  · simp only [hdry, if_false, Bool.false_eq_true, ite_false]
    cases exe (build_ffmpeg_cmd cfg.ffmpeg (renderSrc cfg.inDir s)
      (renderDest cfg.outDir d) cfg) <;> rfl

lemma pass2_shift (cfg : Config) (total : Nat) (exe : List Str → ExeResult)
    (jobs : List Job) :
    ∀ (fs : List Dest) (effs : List Effect) (out : List Str) (n : Nat)
      (effs' : List Effect) (out' : List Str),
      (pass2 cfg total exe jobs ⟨fs, effs, out, n⟩).done
        = n + (pass2 cfg total exe jobs ⟨fs, effs', out', 0⟩).done
      ∧ (pass2 cfg total exe jobs ⟨fs, effs, out, n⟩).fs
        = (pass2 cfg total exe jobs ⟨fs, effs', out', 0⟩).fs := by
  induction jobs with
  | nil => intro fs effs out n effs' out'; exact ⟨by simp [pass2], rfl⟩
  | cons jb rest ih =>
    intro fs effs out n effs' out'
    obtain ⟨s, e, d⟩ := jb
    rw [pass2, pass2]
    dsimp only
    by_cases hskip : d ∈ fs ∧ cfg.overwrite = false
    · rw [if_pos hskip, if_pos hskip]
      exact ih fs effs out n effs' out'
    · rw [if_neg hskip, if_neg hskip]
      have hfs : (stepSt2 cfg total exe s d ⟨fs, effs, out, n⟩).fs
          = (stepSt2 cfg total exe s d ⟨fs, effs', out', 0⟩).fs :=
        stepSt2_fs_shift cfg total exe s d fs effs out n effs' out' 0
      have e1 : stepSt2 cfg total exe s d ⟨fs, effs, out, n⟩
          = ⟨(stepSt2 cfg total exe s d ⟨fs, effs, out, n⟩).fs,
             (stepSt2 cfg total exe s d ⟨fs, effs, out, n⟩).effs,
             (stepSt2 cfg total exe s d ⟨fs, effs, out, n⟩).out,
             (stepSt2 cfg total exe s d ⟨fs, effs, out, n⟩).done⟩ := rfl
      have e2 : stepSt2 cfg total exe s d ⟨fs, effs', out', 0⟩
          = ⟨(stepSt2 cfg total exe s d ⟨fs, effs', out', 0⟩).fs,
             (stepSt2 cfg total exe s d ⟨fs, effs', out', 0⟩).effs,
             (stepSt2 cfg total exe s d ⟨fs, effs', out', 0⟩).out,
             (stepSt2 cfg total exe s d ⟨fs, effs', out', 0⟩).done⟩ := rfl
      rw [e1, e2, stepSt2_done, stepSt2_done, ← hfs]
      dsimp only
      obtain ⟨ihd1, ihf1⟩ := ih (stepSt2 cfg total exe s d ⟨fs, effs, out, n⟩).fs
        (stepSt2 cfg total exe s d ⟨fs, effs, out, n⟩).effs
        (stepSt2 cfg total exe s d ⟨fs, effs, out, n⟩).out (n + 1)
        (stepSt2 cfg total exe s d ⟨fs, effs', out', 0⟩).effs
        (stepSt2 cfg total exe s d ⟨fs, effs', out', 0⟩).out
      obtain ⟨ihd2, ihf2⟩ := ih (stepSt2 cfg total exe s d ⟨fs, effs, out, n⟩).fs
        (stepSt2 cfg total exe s d ⟨fs, effs', out', 0⟩).effs
        (stepSt2 cfg total exe s d ⟨fs, effs', out', 0⟩).out (0 + 1)
        (stepSt2 cfg total exe s d ⟨fs, effs', out', 0⟩).effs
        (stepSt2 cfg total exe s d ⟨fs, effs', out', 0⟩).out
      constructor
      · rw [ihd1, ihd2]; omega
      · rw [ihf1, ihf2]

lemma pass2_total_of_ow (cfg : Config) (total : Nat)
    (exe : List Str → ExeResult) (how : cfg.overwrite = true) (jobs : List Job) :
    ∀ st : St2, (pass2 cfg total exe jobs st).done = st.done + jobs.length := by
  induction jobs with
  | nil => intro st; simp [pass2]
  | cons jb rest ih =>
    intro st
    obtain ⟨s, e, d⟩ := jb
    rw [pass2]
    have hns : ¬(d ∈ st.fs ∧ cfg.overwrite = false) := by
      intro hc; rw [how] at hc; exact absurd hc.2 (by decide)
    rw [if_neg hns, ih, stepSt2_done]
    simp only [List.length_cons]
    omega

lemma pass2_done_le_pass1_total (cfg2 : Config) (total : Nat)
    (exe : List Str → ExeResult) (ow : Bool) (how : cfg2.overwrite = ow)
    (jobs : List Job) :
    ∀ (fsA : List Dest) (effsA : List Effect) (fsB : List Dest)
      (effsB : List Effect) (outB : List Str),
      (∀ p ∈ fsA, p ∈ fsB) →
      (∀ j ∈ jobs, ∀ p ∈ parentsOf j.2.2, p ∈ fsB) →
      (pass2 cfg2 total exe jobs ⟨fsB, effsB, outB, 0⟩).done
        ≤ (pass1 ow jobs ⟨fsA, effsA, 0⟩).total := by
  induction jobs with
  | nil => intro fsA effsA fsB effsB outB _ _; simp [pass1, pass2]
  | cons jb rest ih =>
    intro fsA effsA fsB effsB outB hsub hpar
    obtain ⟨s, e, d⟩ := jb
    rw [pass1, pass2]
    dsimp only
    have hsubB : ∀ p ∈ parentsOf d ++ fsA, p ∈ fsB := by
      intro p hp
      rcases List.mem_append.mp hp with hp | hp
      · exact hpar (s, e, d) (List.mem_cons_self _ _) p hp
      · exact hsub p hp
    have hparR : ∀ j ∈ rest, ∀ p ∈ parentsOf j.2.2, p ∈ fsB :=
      fun j hj => hpar j (List.mem_cons_of_mem _ hj)
    by_cases hB : d ∈ fsB ∧ cfg2.overwrite = false
    · rw [if_pos hB, pass1_total_shift]
      exact le_trans (ih (parentsOf d ++ fsA)
        (effsA ++ [Effect.mkdir d.dropLast]) fsB effsB outB hsubB hparR)
        (Nat.le_add_left _ _)
    · have hA : ¬(d ∈ parentsOf d ++ fsA ∧ ow = false) := by
        intro hc
        apply hB
        refine ⟨hsubB d hc.1, ?_⟩
        rw [how]; exact hc.2
      rw [if_neg hB, if_neg hA, pass1_total_shift]
      have heta : stepSt2 cfg2 total exe s d ⟨fsB, effsB, outB, 0⟩
          = ⟨(stepSt2 cfg2 total exe s d ⟨fsB, effsB, outB, 0⟩).fs,
             (stepSt2 cfg2 total exe s d ⟨fsB, effsB, outB, 0⟩).effs,
             (stepSt2 cfg2 total exe s d ⟨fsB, effsB, outB, 0⟩).out,
             (stepSt2 cfg2 total exe s d ⟨fsB, effsB, outB, 0⟩).done⟩ := rfl
      rw [heta, stepSt2_done]
      dsimp only
      rw [(pass2_shift cfg2 total exe rest
        (stepSt2 cfg2 total exe s d ⟨fsB, effsB, outB, 0⟩).fs
        (stepSt2 cfg2 total exe s d ⟨fsB, effsB, outB, 0⟩).effs
        (stepSt2 cfg2 total exe s d ⟨fsB, effsB, outB, 0⟩).out (0 + 1)
        (stepSt2 cfg2 total exe s d ⟨fsB, effsB, outB, 0⟩).effs
        (stepSt2 cfg2 total exe s d ⟨fsB, effsB, outB, 0⟩).out).1]
      have hfsB' : ∀ p ∈ fsB,
          p ∈ (stepSt2 cfg2 total exe s d ⟨fsB, effsB, outB, 0⟩).fs :=
        fun p hp => stepSt2_fs_sup cfg2 total exe s d _ p hp
      have hle := ih (parentsOf d ++ fsA) (effsA ++ [Effect.mkdir d.dropLast])
        (stepSt2 cfg2 total exe s d ⟨fsB, effsB, outB, 0⟩).fs
        (stepSt2 cfg2 total exe s d ⟨fsB, effsB, outB, 0⟩).effs
        (stepSt2 cfg2 total exe s d ⟨fsB, effsB, outB, 0⟩).out
        (fun p hp => hfsB' p (hsubB p hp))
        (fun j hj p hp => hfsB' p (hparR j hj p hp))
      omega

def cfgC8 : Config :=
  ⟨"ffmpeg".toList, "/in".toList, "/out".toList, "wav,wav".toList, none, none,
   none, false, false, false, false, [⟨[], "a.mp3".toList⟩]⟩

/-- C8 counterexample: with `--formats wav,wav` (duplicates are kept) and
no overwrite, both pairs are counted during planning (2 planned), but in
execute mode the first conversion creates the destination, so the second
identical destination is skipped by the exists-check: only 1 job is
attempted. -/
theorem C8_counterexample :
    (mainRun cfgC8 [] exeOk).isSome = true
    ∧ (forced (mainRun cfgC8 [] exeOk)).planned = 2
    ∧ (forced (mainRun cfgC8 [] exeOk)).attempted = 1 := by decide

/-- C8 (amended): the number of attempted jobs never exceeds the number
planned, and the two are equal whenever overwrite is on; with overwrite
off they can differ, because destinations coming into existence between
the counting pass and the execution pass (outputs of earlier jobs, or
output directories) cause execution-phase skips. -/
theorem C8_attempted_le_planned (cfg : Config) (fs0 : List Dest)
    (exe : List Str → ExeResult) (r : RunResult)
    (h : mainRun cfg fs0 exe = some r) :
    r.attempted ≤ r.planned
    ∧ (cfg.overwrite = true → r.attempted = r.planned) := by
  rcases mainRun_shape cfg fs0 exe r h with hr | hr
    | ⟨-, ⟨-, hr⟩ | ⟨-, hr⟩ | ⟨jobs, -, -, -, ⟨ht0, hr⟩ | ⟨-, hr⟩⟩⟩
  · rw [hr]; exact ⟨Nat.le_refl _, fun _ => rfl⟩
  · rw [hr]; exact ⟨Nat.le_refl _, fun _ => rfl⟩
  · rw [hr]; exact ⟨Nat.le_refl _, fun _ => rfl⟩
  · rw [hr]; exact ⟨Nat.le_refl _, fun _ => rfl⟩
  · rw [hr]
    dsimp only
    exact ⟨Nat.zero_le _, fun _ => ht0.symm⟩
  · rw [hr]
    dsimp only
    have how2 := (telephonyStep_fields cfg (parseFormats cfg.formats)).2
    constructor
    · unfold st2Of st1Of
      exact pass2_done_le_pass1_total
        (telephonyStep cfg (parseFormats cfg.formats)).1
        (st1Of cfg fs0 jobs).total exe cfg.overwrite how2 jobs
        fs0 (effs0 cfg) (st1Of cfg fs0 jobs).fs (st1Of cfg fs0 jobs).effs
        (headerOf cfg (st1Of cfg fs0 jobs).total)
        (fun p hp => pass1_fs_mono cfg.overwrite jobs ⟨fs0, effs0 cfg, 0⟩ p hp)
        (fun j hj p hp =>
          pass1_fs_parents cfg.overwrite jobs ⟨fs0, effs0 cfg, 0⟩ j hj p hp)
    · intro how
      have how3 : (telephonyStep cfg (parseFormats cfg.formats)).1.overwrite
          = true := by rw [how2, how]
      unfold st2Of st1Of
      rw [pass2_total_of_ow _ _ exe how3 jobs, how, pass1_total_of_ow]

theorem C8_attempted_le_planned_witness :
    (forced (mainRun cfgC8 [] exeOk)).attempted
      ≤ (forced (mainRun cfgC8 [] exeOk)).planned
    ∧ (cfgC8.overwrite = true →
        (forced (mainRun cfgC8 [] exeOk)).attempted
          = (forced (mainRun cfgC8 [] exeOk)).planned) :=
  C8_attempted_le_planned cfgC8 [] exeOk (forced (mainRun cfgC8 [] exeOk))
    (by decide)

/-! ## C9: per-job failure containment -/

lemma pass2_append (cfg2 : Config) (total : Nat) (exe : List Str → ExeResult)
    (l1 l2 : List Job) :
    ∀ st : St2, pass2 cfg2 total exe (l1 ++ l2) st
      = pass2 cfg2 total exe l2 (pass2 cfg2 total exe l1 st) := by
  induction l1 with
  | nil => intro st; rfl
  | cons jb rest ih =>
    intro st
    obtain ⟨s, e, d⟩ := jb
    rw [List.cons_append, pass2, pass2]
    by_cases hskip : d ∈ st.fs ∧ cfg2.overwrite = false
    · rw [if_pos hskip, if_pos hskip, ih]
    · rw [if_neg hskip, if_neg hskip, ih]

lemma stepSt2_out_sup (cfg2 : Config) (total : Nat) (exe : List Str → ExeResult)
    (s : RelPath) (d : Dest) (st : St2) :
    ∀ x ∈ st.out, x ∈ (stepSt2 cfg2 total exe s d st).out := by
  intro x hx
  unfold stepSt2
  dsimp only
  split
  · exact List.mem_append.mpr (Or.inl hx)
  · split
    · exact List.mem_append.mpr (Or.inl hx)
    · exact List.mem_append.mpr (Or.inl (List.mem_append.mpr (Or.inl hx)))
    · exact List.mem_append.mpr (Or.inl hx)
    · exact List.mem_append.mpr (Or.inl hx)

lemma pass2_out_mono (cfg2 : Config) (total : Nat) (exe : List Str → ExeResult)
    (jobs : List Job) :
    ∀ st : St2, ∀ x ∈ st.out, x ∈ (pass2 cfg2 total exe jobs st).out := by
  induction jobs with
  | nil => intro st x hx; exact hx
  | cons jb rest ih =>
    intro st x hx
    obtain ⟨s, e, d⟩ := jb
    rw [pass2]
    by_cases hskip : d ∈ st.fs ∧ cfg2.overwrite = false
    · rw [if_pos hskip]; exact ih st x hx
    · rw [if_neg hskip]
      exact ih _ x (stepSt2_out_sup cfg2 total exe s d st x hx)

lemma stepSt2_fail_out (cfg2 : Config) (total : Nat) (exe : List Str → ExeResult)
    (s : RelPath) (d : Dest) (st : St2) (stderr : Str)
    (hdry : cfg2.dryRun = false)
    (hexe : exe (build_ffmpeg_cmd cfg2.ffmpeg (renderSrc cfg2.inDir s)
      (renderDest cfg2.outDir d) cfg2) = ExeResult.fail stderr) :
    errLine (renderSrc cfg2.inDir s) (renderDest cfg2.outDir d)
        ∈ (stepSt2 cfg2 total exe s d st).out
    ∧ (stderr = [] → noDetailsLine ∈ (stepSt2 cfg2 total exe s d st).out)
    ∧ (stderr ≠ [] → diceLine stderr ∈ (stepSt2 cfg2 total exe s d st).out) := by
  unfold stepSt2
  simp only [buildInWorld]
  rw [if_neg (by simp [hdry])]
  simp only [hexe]
  refine ⟨by simp, fun h0 => by simp [h0], fun h0 => by simp [h0]⟩

lemma stepSt2_unexpected_out (cfg2 : Config) (total : Nat)
    (exe : List Str → ExeResult) (s : RelPath) (d : Dest) (st : St2) (msg : Str)
    (hdry : cfg2.dryRun = false)
    (hexe : exe (build_ffmpeg_cmd cfg2.ffmpeg (renderSrc cfg2.inDir s)
        (renderDest cfg2.outDir d) cfg2) = ExeResult.launchFail msg
      ∨ exe (build_ffmpeg_cmd cfg2.ffmpeg (renderSrc cfg2.inDir s)
        (renderDest cfg2.outDir d) cfg2) = ExeResult.raised msg) :
    unexpectedLine (renderSrc cfg2.inDir s) (renderDest cfg2.outDir d) msg
      ∈ (stepSt2 cfg2 total exe s d st).out := by
  unfold stepSt2
  simp only [buildInWorld]
  rw [if_neg (by simp [hdry])]
  rcases hexe with hexe | hexe
  · simp only [hexe]; simp
  · simp only [hexe]; simp

lemma stepSt2_fs_char (cfg2 : Config) (total : Nat) (exe : List Str → ExeResult)
    (s : RelPath) (d : Dest) (fs : List Dest) (effs : List Effect)
    (out : List Str) (n : Nat) :
    (stepSt2 cfg2 total exe s d ⟨fs, effs, out, n⟩).fs
      = if cfg2.dryRun = false
          ∧ exe (build_ffmpeg_cmd cfg2.ffmpeg (renderSrc cfg2.inDir s)
              (renderDest cfg2.outDir d) cfg2) = ExeResult.ok
        then d :: fs else fs := by
  unfold stepSt2
  simp only [buildInWorld]
  by_cases hdry : cfg2.dryRun
  · simp [hdry]
  · have hdf : cfg2.dryRun = false := by
      cases hb : cfg2.dryRun
      · rfl
      · exact absurd hb hdry
    simp only [hdry, if_false, ite_false, hdf, true_and]
    cases hx : exe (build_ffmpeg_cmd cfg2.ffmpeg (renderSrc cfg2.inDir s)
        (renderDest cfg2.outDir d) cfg2) <;> simp [hx]

lemma pass2_okeq (cfg2 : Config) (total : Nat) (exe exe' : List Str → ExeResult)
    (heq : ∀ c, exe c = ExeResult.ok ↔ exe' c = ExeResult.ok) (jobs : List Job) :
    ∀ (fs : List Dest) (effsA : List Effect) (outA : List Str)
      (effsB : List Effect) (outB : List Str),
      (pass2 cfg2 total exe jobs ⟨fs, effsA, outA, 0⟩).done
        = (pass2 cfg2 total exe' jobs ⟨fs, effsB, outB, 0⟩).done
      ∧ (pass2 cfg2 total exe jobs ⟨fs, effsA, outA, 0⟩).fs
        = (pass2 cfg2 total exe' jobs ⟨fs, effsB, outB, 0⟩).fs := by
  induction jobs with
  | nil => intro fs effsA outA effsB outB; exact ⟨rfl, rfl⟩
  | cons jb rest ih =>
    intro fs effsA outA effsB outB
    obtain ⟨s, e, d⟩ := jb
    rw [pass2, pass2]
    dsimp only
    by_cases hskip : d ∈ fs ∧ cfg2.overwrite = false
    · rw [if_pos hskip, if_pos hskip]; exact ih fs effsA outA effsB outB
    · rw [if_neg hskip, if_neg hskip]
      have hfs : (stepSt2 cfg2 total exe s d ⟨fs, effsA, outA, 0⟩).fs
          = (stepSt2 cfg2 total exe' s d ⟨fs, effsB, outB, 0⟩).fs := by
        rw [stepSt2_fs_char, stepSt2_fs_char]
        exact if_congr (and_congr_right fun _ => heq _) rfl rfl
      have eA : stepSt2 cfg2 total exe s d ⟨fs, effsA, outA, 0⟩
          = ⟨(stepSt2 cfg2 total exe s d ⟨fs, effsA, outA, 0⟩).fs,
             (stepSt2 cfg2 total exe s d ⟨fs, effsA, outA, 0⟩).effs,
             (stepSt2 cfg2 total exe s d ⟨fs, effsA, outA, 0⟩).out,
             (stepSt2 cfg2 total exe s d ⟨fs, effsA, outA, 0⟩).done⟩ := rfl
      have eB : stepSt2 cfg2 total exe' s d ⟨fs, effsB, outB, 0⟩
          = ⟨(stepSt2 cfg2 total exe' s d ⟨fs, effsB, outB, 0⟩).fs,
             (stepSt2 cfg2 total exe' s d ⟨fs, effsB, outB, 0⟩).effs,
             (stepSt2 cfg2 total exe' s d ⟨fs, effsB, outB, 0⟩).out,
             (stepSt2 cfg2 total exe' s d ⟨fs, effsB, outB, 0⟩).done⟩ := rfl
      rw [eA, eB, stepSt2_done, stepSt2_done, hfs]
      dsimp only
      obtain ⟨shAd, shAf⟩ := pass2_shift cfg2 total exe rest
        (stepSt2 cfg2 total exe' s d ⟨fs, effsB, outB, 0⟩).fs
        (stepSt2 cfg2 total exe s d ⟨fs, effsA, outA, 0⟩).effs
        (stepSt2 cfg2 total exe s d ⟨fs, effsA, outA, 0⟩).out (0 + 1)
        (stepSt2 cfg2 total exe s d ⟨fs, effsA, outA, 0⟩).effs
        (stepSt2 cfg2 total exe s d ⟨fs, effsA, outA, 0⟩).out
      obtain ⟨shBd, shBf⟩ := pass2_shift cfg2 total exe' rest
        (stepSt2 cfg2 total exe' s d ⟨fs, effsB, outB, 0⟩).fs
        (stepSt2 cfg2 total exe' s d ⟨fs, effsB, outB, 0⟩).effs
        (stepSt2 cfg2 total exe' s d ⟨fs, effsB, outB, 0⟩).out (0 + 1)
        (stepSt2 cfg2 total exe' s d ⟨fs, effsB, outB, 0⟩).effs
        (stepSt2 cfg2 total exe' s d ⟨fs, effsB, outB, 0⟩).out
      obtain ⟨ihd, ihf⟩ := ih (stepSt2 cfg2 total exe' s d ⟨fs, effsB, outB, 0⟩).fs
        (stepSt2 cfg2 total exe s d ⟨fs, effsA, outA, 0⟩).effs
        (stepSt2 cfg2 total exe s d ⟨fs, effsA, outA, 0⟩).out
        (stepSt2 cfg2 total exe' s d ⟨fs, effsB, outB, 0⟩).effs
        (stepSt2 cfg2 total exe' s d ⟨fs, effsB, outB, 0⟩).out
      exact ⟨by rw [shAd, shBd, ihd], by rw [shAf, shBf, ihf]⟩

/-- C9: per-job failures are contained: (1) every run that reaches the
execution phase (a positive planned count) finishes the whole batch with
exit status zero and prints the final line, whatever the external
executable does; (2) a processed job whose invocation raises
`CalledProcessError` yields a report naming both source and destination,
with the captured stderr or a no-details note, while the remaining jobs
are still run; (3) likewise a launch failure or unexpected exception
yields the "Error inesperado" report naming source and destination;
(4) which jobs are attempted depends only on which invocations succeed —
replacing failures by other failures changes neither the attempted nor
the planned count. -/
theorem C9_failure_containment :
    (∀ (cfg : Config) (fs0 : List Dest) (exe : List Str → ExeResult)
       (r : RunResult),
       mainRun cfg fs0 exe = some r → 0 < r.planned →
       r.exit = 0 ∧ finalLine ∈ r.output)
    ∧ (∀ (cfg2 : Config) (total : Nat) (exe : List Str → ExeResult)
         (pre post : List Job) (s : RelPath) (e : Str) (d : Dest) (st : St2)
         (stderr : Str),
       cfg2.dryRun = false →
       ¬(d ∈ (pass2 cfg2 total exe pre st).fs ∧ cfg2.overwrite = false) →
       exe (build_ffmpeg_cmd cfg2.ffmpeg (renderSrc cfg2.inDir s)
         (renderDest cfg2.outDir d) cfg2) = ExeResult.fail stderr →
       errLine (renderSrc cfg2.inDir s) (renderDest cfg2.outDir d)
           ∈ (pass2 cfg2 total exe (pre ++ (s, e, d) :: post) st).out
       ∧ (stderr = [] → noDetailsLine
           ∈ (pass2 cfg2 total exe (pre ++ (s, e, d) :: post) st).out)
       ∧ (stderr ≠ [] → diceLine stderr
           ∈ (pass2 cfg2 total exe (pre ++ (s, e, d) :: post) st).out))
    ∧ (∀ (cfg2 : Config) (total : Nat) (exe : List Str → ExeResult)
         (pre post : List Job) (s : RelPath) (e : Str) (d : Dest) (st : St2)
         (msg : Str),
       cfg2.dryRun = false →
       ¬(d ∈ (pass2 cfg2 total exe pre st).fs ∧ cfg2.overwrite = false) →
       (exe (build_ffmpeg_cmd cfg2.ffmpeg (renderSrc cfg2.inDir s)
           (renderDest cfg2.outDir d) cfg2) = ExeResult.launchFail msg
        ∨ exe (build_ffmpeg_cmd cfg2.ffmpeg (renderSrc cfg2.inDir s)
           (renderDest cfg2.outDir d) cfg2) = ExeResult.raised msg) →
       unexpectedLine (renderSrc cfg2.inDir s) (renderDest cfg2.outDir d) msg
         ∈ (pass2 cfg2 total exe (pre ++ (s, e, d) :: post) st).out)
    ∧ (∀ (cfg : Config) (fs0 : List Dest) (exe exe' : List Str → ExeResult)
         (r r' : RunResult),
       (∀ c, exe c = ExeResult.ok ↔ exe' c = ExeResult.ok) →
       mainRun cfg fs0 exe = some r → mainRun cfg fs0 exe' = some r' →
       r.attempted = r'.attempted ∧ r.planned = r'.planned) := by
  refine ⟨?part1, ?part2, ?part3, ?part4⟩
  case part1 =>
    intro cfg fs0 exe r h hplan
    rcases mainRun_shape cfg fs0 exe r h with hr | hr
      | ⟨-, ⟨-, hr⟩ | ⟨-, hr⟩ | ⟨jobs, -, -, -, ⟨ht0, hr⟩ | ⟨-, hr⟩⟩⟩
    · rw [hr] at hplan; exact absurd hplan (by simp)
    · rw [hr] at hplan; exact absurd hplan (by simp)
    · rw [hr] at hplan; exact absurd hplan (by simp)
    · rw [hr] at hplan; exact absurd hplan (by simp)
    · rw [hr] at hplan; dsimp only at hplan; rw [ht0] at hplan
      exact absurd hplan (by simp)
    · rw [hr]
      refine ⟨rfl, ?_⟩
      exact List.mem_append.mpr (Or.inr (List.mem_singleton_self _))
  case part2 =>
    intro cfg2 total exe pre post s e d st stderr hdry hns hexe
    rw [pass2_append, pass2, if_neg hns]
    have hf := stepSt2_fail_out cfg2 total exe s d
      (pass2 cfg2 total exe pre st) stderr hdry hexe
    exact ⟨pass2_out_mono cfg2 total exe post _ _ hf.1,
      fun h0 => pass2_out_mono cfg2 total exe post _ _ (hf.2.1 h0),
      fun h0 => pass2_out_mono cfg2 total exe post _ _ (hf.2.2 h0)⟩
  case part3 =>
    intro cfg2 total exe pre post s e d st msg hdry hns hexe
    rw [pass2_append, pass2, if_neg hns]
    exact pass2_out_mono cfg2 total exe post _ _
      (stepSt2_unexpected_out cfg2 total exe s d
        (pass2 cfg2 total exe pre st) msg hdry hexe)
  case part4 =>
    intro cfg fs0 exe exe' r r' heq h h'
    unfold mainRun at h h'
    cases hp : exe (probeCmd cfg) with
    | raised m => rw [hp] at h; exact absurd h (by simp)
    | launchFail m =>
      rw [hp] at h
      have hr := (Option.some.inj h).symm
      cases hp' : exe' (probeCmd cfg) with
      | raised m' => rw [hp'] at h'; exact absurd h' (by simp)
      | ok =>
        have : exe (probeCmd cfg) = ExeResult.ok := (heq _).mpr hp'
        rw [hp] at this; exact absurd this (by simp)
      | launchFail m' =>
        rw [hp'] at h'
        have hr' := (Option.some.inj h').symm
        rw [hr, hr']; exact ⟨rfl, rfl⟩
      | fail m' =>
        rw [hp'] at h'
        have hr' := (Option.some.inj h').symm
        rw [hr, hr']; exact ⟨rfl, rfl⟩
    | fail m =>
      rw [hp] at h
      have hr := (Option.some.inj h).symm
      cases hp' : exe' (probeCmd cfg) with
      | raised m' => rw [hp'] at h'; exact absurd h' (by simp)
      | ok =>
        have : exe (probeCmd cfg) = ExeResult.ok := (heq _).mpr hp'
        rw [hp] at this; exact absurd this (by simp)
      | launchFail m' =>
        rw [hp'] at h'
        have hr' := (Option.some.inj h').symm
        rw [hr, hr']; exact ⟨rfl, rfl⟩
      | fail m' =>
        rw [hp'] at h'
        have hr' := (Option.some.inj h').symm
        rw [hr, hr']; exact ⟨rfl, rfl⟩
    | ok =>
      have hp' : exe' (probeCmd cfg) = ExeResult.ok := (heq _).mp hp
      rw [hp] at h
      rw [hp'] at h'
      by_cases hf : parseFormats cfg.formats = []
      · rw [if_pos hf] at h h'
        rw [← Option.some.inj h, ← Option.some.inj h']
        exact ⟨rfl, rfl⟩
      rw [if_neg hf] at h h'
      by_cases ha : audioOf cfg = []
      · rw [if_pos ha] at h h'
        rw [← Option.some.inj h, ← Option.some.inj h']
        exact ⟨rfl, rfl⟩
      rw [if_neg ha] at h h'
      cases hj : attachDests (jobPairs (audioOf cfg) (parseFormats cfg.formats)) with
      | none => simp only [hj] at h; exact absurd h (by simp)
      | some jobs =>
        simp only [hj] at h h'
        by_cases ht : (st1Of cfg fs0 jobs).total = 0
        · rw [if_pos ht] at h h'
          rw [← Option.some.inj h, ← Option.some.inj h']
          exact ⟨rfl, rfl⟩
        · rw [if_neg ht] at h h'
          rw [← Option.some.inj h, ← Option.some.inj h']
          refine ⟨?_, rfl⟩
          dsimp only
          unfold st2Of
          exact (pass2_okeq (telephonyStep cfg (parseFormats cfg.formats)).1
            (st1Of cfg fs0 jobs).total exe exe' heq jobs
            (st1Of cfg fs0 jobs).fs (st1Of cfg fs0 jobs).effs
            (headerOf cfg (st1Of cfg fs0 jobs).total)
            (st1Of cfg fs0 jobs).effs
            (headerOf cfg (st1Of cfg fs0 jobs).total)).1

def cfgC9 : Config :=
  ⟨"ffmpeg".toList, "/in".toList, "/out".toList, "wav,flac".toList, none, none,
   none, false, false, false, false,
   [⟨["b".toList], "c.wav".toList⟩, ⟨[], "a.mp3".toList⟩]⟩

/-- The oracle whose probe succeeds but whose every conversion fails with
diagnostic text. -/
def exeFail : List Str → ExeResult :=
  fun c => if c.length = 2 then ExeResult.ok else ExeResult.fail "boom".toList

theorem C9_failure_containment_witness :
    (forced (mainRun cfgC9 [] exeFail)).exit = 0
    ∧ finalLine ∈ (forced (mainRun cfgC9 [] exeFail)).output :=
  C9_failure_containment.1 cfgC9 [] exeFail (forced (mainRun cfgC9 [] exeFail))
    (by decide) (by decide)

end ConvertAudio
